import Mathlib

/-!
Verification of the CRM Meta-agent's core pipeline (`src/agent/app/meta_client.py`
and `src/agent/app/main.py`): the per-node insights normalization, the paginated
fetch, the hierarchy assembler with its fallback path, the ad-set status-update
handler, the config-pull backoff, and the mutation error normalization.

JSON values are modelled by the inductive type `J`; Python dicts are association
lists with insertion-order semantics (assignment updates the first matching key in
place, otherwise appends; `del` removes the first matching key).  Code that can
raise a Python exception is modelled in the `Except String` monad; the string is
only a label for the kind of exception.  HTTP traffic is modelled by scripts:
lists of `Except String J`, one entry per network call made, `.error` standing for
a request that raises (transport failure, non-2xx status via raise_for_status, or
an unparseable body).
-/

/-- A JSON value as produced by `response.json()` in the Python source.
Numbers are modelled as integers, which covers every value the claims exercise. -/
inductive J where
  | null : J
  | bool (b : Bool) : J
  | num (n : Int) : J
  | str (s : String) : J
  | arr (elems : List J) : J
  | obj (fields : List (String × J)) : J

/-- Python `d.get(key)` / `key in d` lookup on an insertion-ordered dict. -/
def dictGet : List (String × J) → String → Option J
  | [], _ => none
  | (k, v) :: rest, key => if k = key then some v else dictGet rest key

/-- Python `d[key] = val`: replaces the value of an existing key in place,
otherwise appends the binding at the end (insertion order). -/
def dictSet : List (String × J) → String → J → List (String × J)
  | [], key, val => [(key, val)]
  | (k, v) :: rest, key, val =>
    if k = key then (k, val) :: rest else (k, v) :: dictSet rest key val

/-- Python `del d[key]`: removes the binding of `key`. -/
def dictDel : List (String × J) → String → List (String × J)
  | [], _ => []
  | (k, v) :: rest, key => if k = key then rest else (k, v) :: dictDel rest key

/-- The keys of a dict, in order. -/
def keysOf (d : List (String × J)) : List String := d.map Prod.fst

/-- Does the needle occur as a prefix of some suffix of the haystack? -/
def containsSubAux (needle : List Char) : List Char → Bool
  | [] => needle.isEmpty
  | c :: rest => needle.isPrefixOf (c :: rest) || containsSubAux needle rest

/-- Python `needle in haystack` for strings (substring test). -/
def containsSub (haystack needle : String) : Bool :=
  containsSubAux needle.data haystack.data

/-- Effectful map over a list in the `Except` monad, mirroring a Python `for`
loop that rewrites each element and raises out of the loop on the first failure
(the partially mutated elements are discarded together with the container). -/
def exMapM (f : α → Except String β) : List α → Except String (List β)
  | [] => .ok []
  | x :: xs =>
    match f x with
    | .error e => .error e
    | .ok y =>
      match exMapM f xs with
      | .error e => .error e
      | .ok ys => .ok (y :: ys)

/-- Python `lst[0] if lst else {}` applied to the candidate `insights_list`.
Falsy values ([], "", {}, 0, False, None) give `{}`; a truthy list or string is
subscripted at 0; subscripting a truthy dict with the int 0 raises KeyError and
subscripting a number or True raises TypeError. -/
def firstItemOrEmpty : J → Except String J
  | J.arr [] => .ok (J.obj [])
  | J.arr (x :: _) => .ok x
  | J.str "" => .ok (J.obj [])
  | J.str s => .ok (J.str (String.singleton s.front))
  | J.obj [] => .ok (J.obj [])
  | J.obj (_ :: _) => .error "KeyError"
  | J.num n => if n = 0 then .ok (J.obj []) else .error "TypeError"
  | J.bool b => if b then .error "TypeError" else .ok (J.obj [])
  | J.null => .ok (J.obj [])

/-- The candidate `insights_list` of the normalization: `insights["data"]` raw
when insights is a dict with a `data` key (a dict without one falls through both
isinstance branches to `[]`), insights itself when it is a list, and `[]`
otherwise. -/
def candidateOf : J → J
  | J.obj inner => (dictGet inner "data").getD (J.arr [])
  | J.arr l => J.arr l
  | _ => J.arr []

/-- The per-node insights normalization, exactly as duplicated in the source at
meta_client.py lines 127-140 and 151-164 (get_ad_sets) and lines 277-290, 311-323
and 339-351 (get_campaigns_detailed): if `insights` is present,
`performance_metrics` is set to `candidate[0] if candidate else {}` (see
`candidateOf`) and the `insights` key is then deleted; if `insights` is absent,
`performance_metrics` is set to `{}`. -/
def normalizeFields (fields : List (String × J)) : Except String (List (String × J)) :=
  match dictGet fields "insights" with
  | some ins =>
    match firstItemOrEmpty (candidateOf ins) with
    | .error e => .error e
    | .ok perf => .ok (dictDel (dictSet fields "performance_metrics" perf) "insights")
  | none => .ok (dictSet fields "performance_metrics" (J.obj []))

/-- The normalization step applied to an arbitrary JSON node.  On a non-dict the
Python loop body raises (`node["performance_metrics"] = {}` or `node["insights"]`
is a TypeError on every non-dict value reached by the source's loops). -/
def normalizeNode : J → Except String J
  | J.obj fields => (normalizeFields fields).map J.obj
  | _ => .error "TypeError"

/-- The metrics value claim C1 describes, following the claim's words: the first
element of `insights["data"]` when insights is a mapping with a `data` key, the
first element of insights when it is a sequence, and `{}` when the candidate list
is empty, insights is absent, or insights has any other shape. -/
def claimedMetrics (fields : List (String × J)) : J :=
  match dictGet fields "insights" with
  | some (J.obj inner) =>
    match dictGet inner "data" with
    | some (J.arr l) => l.headD (J.obj [])
    | _ => J.obj []
  | some (J.arr l) => l.headD (J.obj [])
  | _ => J.obj []

/-- Well-formedness used by C1: when `insights` is a mapping carrying a `data`
key, that value is a sequence (the shape the platform sends; for other truthy
`data` values the Python subscript `candidate[0]` raises instead of producing a
"first element"). -/
def insightsDataIsList (fields : List (String × J)) : Bool :=
  match dictGet fields "insights" with
  | some (J.obj inner) =>
    match dictGet inner "data" with
    | some (J.arr _) => true
    | some _ => false
    | none => true
  | _ => true

/-- Python `data.get("data", [])` (meta_client.py lines 124, 151, 166, 257, 267):
returns the raw value under `data`, defaulting to `[]`; calling `.get` on a
non-dict body raises AttributeError. -/
def getDataRaw : J → Except String J
  | J.obj fields => .ok ((dictGet fields "data").getD (J.arr []))
  | _ => .error "AttributeError"

/-- The pagination guard `"paging" in data and "next" in data["paging"]`
(meta_client.py lines 143 and 260), evaluated outside any try block, so a raise
here propagates.  A dict `paging` is tested for a `next` key; a list or string
`paging` is tested by membership or substring (no raise); `"next" in <number>`
raises TypeError.  The loops only reach this with a dict body, but membership on
a non-dict body is modelled for totality: a hit would raise on the subsequent
subscript inside the same condition. -/
def whileCond : J → Except String Bool
  | J.obj fields =>
    match dictGet fields "paging" with
    | none => .ok false
    | some (J.obj p) => .ok (dictGet p "next").isSome
    | some (J.arr l) =>
      .ok (l.any fun x => match x with | J.str s => s = "next" | _ => false)
    | some (J.str s) => .ok (containsSub s "next")
    | some _ => .error "TypeError"
  | J.arr l =>
    if l.any (fun x => match x with | J.str s => s = "paging" | _ => false) then
      .error "TypeError"
    else .ok false
  | J.str s => if containsSub s "paging" then .error "TypeError" else .ok false
  | _ => .error "TypeError"

/-- The extraction `data["paging"]["next"]` (meta_client.py lines 145, 263),
performed inside the loop's try block, so a raise here is caught and breaks the
loop.  Subscripting a list or string paging value with the string "next" raises
TypeError. -/
def nextUrl : J → Except String J
  | J.obj fields =>
    match dictGet fields "paging" with
    | some (J.obj p) =>
      match dictGet p "next" with
      | some u => .ok u
      | none => .error "KeyError"
    | some _ => .error "TypeError"
    | none => .error "KeyError"
  | _ => .error "TypeError"

/-- Python `acc.extend(x)` where `acc` is a list: a list extends element-wise, a
dict contributes its keys, a string its characters, and a non-iterable raises
TypeError. -/
def extendPy (acc : List J) : J → Except String (List J)
  | J.arr l => .ok (acc ++ l)
  | J.obj f => .ok (acc ++ f.map fun kv => J.str kv.1)
  | J.str s => .ok (acc ++ s.data.map fun c => J.str (String.singleton c))
  | _ => .error "TypeError"

/-- Python `for x in container: <rewrite x via f>` returning the rewritten
container.  Iterating an empty dict or empty string runs zero iterations and
leaves the value unchanged; iterating a non-empty dict or string feeds strings
to the body, and every loop body in the source raises on a string (TypeError on
item assignment or subscript), as does iterating a non-iterable; both are
modelled as the raise the body would produce. -/
def processChildren (v : J) (f : J → Except String J) : Except String J :=
  match v with
  | J.arr l =>
    match exMapM f l with
    | .ok out => .ok (J.arr out)
    | .error e => .error e
  | J.obj [] => .ok (J.obj [])
  | J.str "" => .ok (J.str "")
  | _ => .error "TypeError"

/-- Does the next-page URL contain a query string (`"?" in next_url`,
meta_client.py line 264)? -/
def hasQuery (url : String) : Bool := containsSub url "?"

/-- The pagination loop of get_ad_sets (meta_client.py lines 143-169).  `resp` is
the JSON of the last response, `acc` the Python list object `ad_sets` (any raw
value when the first body's `data` was not a list), `script` the remaining
scripted transport.  Each iteration re-checks the guard (raises propagate),
extracts the next link (raises break), issues one GET consuming one script entry
(a raise breaks), normalizes the new page's records in place (a raise breaks
before extending), and extends the accumulator (an AttributeError on a non-list
accumulator breaks); `adsetsStep` is that per-page block.  Returns the
accumulated records and the number of GETs issued by the loop.  An exhausted
script stands for a GET that raises, so with an empty script a passing guard
still breaks with the records so far; only the guard itself can raise there. -/
def adsetsStep (acc page : J) : Except String J :=
  match getDataRaw page with
  | .error e => .error e
  | .ok raw =>
    match processChildren raw normalizeNode with
    | .error e => .error e
    | .ok processed =>
      match acc with
      | J.arr accl =>
        match extendPy accl processed with
        | .ok acc2 => .ok (J.arr acc2)
        | .error e => .error e
      | _ => .error "AttributeError"

def get_ad_sets_loop : J → J → List (Except String J) → Except String (J × Nat)
  | resp, acc, [] =>
    (match whileCond resp with
     | .error e => .error e
     | .ok _ => .ok (acc, 0))
  | resp, acc, r :: rest =>
    match whileCond resp with
    | .error e => .error e
    | .ok false => .ok (acc, 0)
    | .ok true =>
      match nextUrl resp with
      | .error _ => .ok (acc, 0)
      | .ok _url =>
        match r with
        | .error _ => .ok (acc, 1)
        | .ok page =>
          match adsetsStep acc page with
          | .error _ => .ok (acc, 1)
          | .ok acc2 =>
            match get_ad_sets_loop page acc2 rest with
            | .error e => .error e
            | .ok (res, n) => .ok (res, n + 1)

/-- get_ad_sets (meta_client.py lines 92-175) as a function of the scripted
transport: the initial GET (a raise is logged and re-raised, line 173-175), the
first page's `data.get("data", [])`, the in-place normalization of each record
(lines 127-140; a raise here propagates, since only RequestException is caught),
then the pagination loop.  Returns the records together with the total number of
GETs issued. -/
def get_ad_sets (script : List (Except String J)) : Except String (J × Nat) :=
  match script with
  | [] => .error "RequestException"
  | .error e :: _ => .error e
  | .ok data :: rest =>
    match getDataRaw data with
    | .error e => .error e
    | .ok raw =>
      match processChildren raw normalizeNode with
      | .error e => .error e
      | .ok firstRecords =>
        match get_ad_sets_loop data firstRecords rest with
        | .error e => .error e
        | .ok (r, n) => .ok (r, n + 1)

/-- The pagination loop of get_campaigns_detailed (meta_client.py lines 259-272):
like get_ad_sets_loop but the next link must be a string containing "?" (its
query string is re-issued against the endpoint; otherwise the loop breaks
without a call), and the new page's records are appended raw, without
normalization (`campaignsStep`).  A non-string next link makes the inner block
raise before the GET, breaking the loop. -/
def campaignsStep (acc page : J) : Except String J :=
  match getDataRaw page with
  | .error e => .error e
  | .ok raw =>
    match acc with
    | J.arr accl =>
      match extendPy accl raw with
      | .ok acc2 => .ok (J.arr acc2)
      | .error e => .error e
    | _ => .error "AttributeError"

def get_campaigns_loop : J → J → List (Except String J) → Except String (J × Nat)
  | resp, acc, [] =>
    (match whileCond resp with
     | .error e => .error e
     | .ok _ => .ok (acc, 0))
  | resp, acc, r :: rest =>
    match whileCond resp with
    | .error e => .error e
    | .ok false => .ok (acc, 0)
    | .ok true =>
      match nextUrl resp with
      | .error _ => .ok (acc, 0)
      | .ok u =>
        match u with
        | J.str s =>
          if hasQuery s then
            match r with
            | .error _ => .ok (acc, 1)
            | .ok page =>
              match campaignsStep acc page with
              | .error _ => .ok (acc, 1)
              | .ok acc2 =>
                match get_campaigns_loop page acc2 rest with
                | .error e => .error e
                | .ok (res, n) => .ok (res, n + 1)
          else .ok (acc, 0)
        | _ => .ok (acc, 0)

/-- The fetch-and-paginate stage of get_campaigns_detailed (meta_client.py lines
256-272): initial request, `response.get("data", [])`, then the pagination loop.
Any raise propagates to the enclosing try and triggers the fallback path. -/
def get_campaigns_page (script : List (Except String J)) : Except String (J × Nat) :=
  match script with
  | [] => .error "RequestException"
  | .error e :: _ => .error e
  | .ok resp :: rest =>
    match getDataRaw resp with
    | .error e => .error e
    | .ok raw =>
      match get_campaigns_loop resp raw rest with
      | .error e => .error e
      | .ok (r, n) => .ok (r, n + 1)

/-- The re-keying of a campaign's `adsets` container to `ad_sets`
(meta_client.py lines 292-306): a dict with a `data` key contributes that raw
value, a list is used as-is, anything else (including a dict without `data`)
becomes `[]`; `ad_sets` is assigned first and the original `adsets` key is then
deleted; an absent `adsets` yields `ad_sets = []`. -/
def rekeyAdsets (fields : List (String × J)) : List (String × J) :=
  match dictGet fields "adsets" with
  | some v =>
    let lst : J :=
      match v with
      | J.obj inner => (dictGet inner "data").getD (J.arr [])
      | J.arr l => J.arr l
      | _ => J.arr []
    dictDel (dictSet fields "ad_sets" lst) "adsets"
  | none => dictSet fields "ad_sets" (J.arr [])

/-- The in-place validation of an ad set's `ads` container (meta_client.py lines
325-335): a dict with a `data` key is replaced by that raw value, a list is left
unchanged, anything else (or an absent key) becomes `[]`. -/
def rekeyAds (fields : List (String × J)) : List (String × J) :=
  match dictGet fields "ads" with
  | some v =>
    match v with
    | J.obj inner =>
      match dictGet inner "data" with
      | some d => dictSet fields "ads" d
      | none => dictSet fields "ads" (J.arr [])
    | J.arr _ => fields
    | _ => dictSet fields "ads" (J.arr [])
  | none => dictSet fields "ads" (J.arr [])

/-- The per-ad-set step of the primary normalization loop (meta_client.py lines
309-351): normalize the ad set's insights, re-key its `ads`, then normalize each
ad's insights in place. -/
def processAdSet : J → Except String J
  | J.obj fields =>
    match normalizeFields fields with
    | .error e => .error e
    | .ok f1 =>
      let f2 := rekeyAds f1
      match processChildren ((dictGet f2 "ads").getD (J.arr [])) normalizeNode with
      | .error e => .error e
      | .ok newAds => .ok (J.obj (dictSet f2 "ads" newAds))
  | _ => .error "TypeError"

/-- The per-campaign step of the primary normalization loop (meta_client.py
lines 275-351): normalize the campaign's insights, re-key `adsets` to `ad_sets`,
then process each ad set. -/
def processCampaign : J → Except String J
  | J.obj fields =>
    match normalizeFields fields with
    | .error e => .error e
    | .ok f1 =>
      let f2 := rekeyAdsets f1
      match processChildren ((dictGet f2 "ad_sets").getD (J.arr [])) processAdSet with
      | .error e => .error e
      | .ok newAS => .ok (J.obj (dictSet f2 "ad_sets" newAS))
  | _ => .error "TypeError"

/-- The scripted network environment of get_campaigns_detailed: the responses to
the primary nested call and its pagination, the response to the fallback's flat
get_campaigns call, and per-entity scripts for the fallback's get_ad_sets and
get_ads calls, keyed by the entity's `id` value. -/
structure Env where
  primary : List (Except String J)
  fallbackCampaigns : Except String J
  adsetsFor : J → List (Except String J)
  adsFor : J → Except String J

/-- get_ads (meta_client.py lines 177-192): a single GET whose body yields
`response.json().get("data", [])` raw — no insights normalization and no
`performance_metrics` key is added. -/
def get_ads (r : Except String J) : Except String J :=
  match r with
  | .error e => .error e
  | .ok body => getDataRaw body

/-- get_campaigns (meta_client.py lines 75-80): a single GET whose body yields
`response.get("data", [])` raw — flat campaigns without normalization. -/
def get_campaigns (r : Except String J) : Except String J :=
  match r with
  | .error e => .error e
  | .ok body => getDataRaw body

/-- The fallback's per-ad-set step (meta_client.py lines 368-374): try to fetch
the ads by the ad set's id and assign them raw; on any raise assign `ads = []`.
A non-dict ad set makes the recovery assignment itself raise. -/
def fallbackAdSet (env : Env) : J → Except String J
  | J.obj fields =>
    let attempt : Except String J :=
      match dictGet fields "id" with
      | some idv => get_ads (env.adsFor idv)
      | none => .error "KeyError"
    match attempt with
    | .ok ads => .ok (J.obj (dictSet fields "ads" ads))
    | .error _ => .ok (J.obj (dictSet fields "ads" (J.arr [])))
  | _ => .error "TypeError"

/-- The fallback's per-campaign step (meta_client.py lines 361-378): try to
fetch the campaign's ad sets (paginated) by id, assign them, and process each ad
set; on any raise inside that block assign `ad_sets = []` and continue.  A
non-dict campaign makes the recovery assignment itself raise. -/
def fallbackCampaign (env : Env) : J → Except String J
  | J.obj fields =>
    let attempt : Except String J :=
      match dictGet fields "id" with
      | some idv =>
        match get_ad_sets (env.adsetsFor idv) with
        | .error e => .error e
        | .ok (adSets, _) => processChildren adSets (fallbackAdSet env)
      | none => .error "KeyError"
    match attempt with
    | .ok newAS => .ok (J.obj (dictSet fields "ad_sets" newAS))
    | .error _ => .ok (J.obj (dictSet fields "ad_sets" (J.arr [])))
  | _ => .error "TypeError"

/-- The primary path of get_campaigns_detailed (meta_client.py lines 255-353):
fetch and paginate the nested response, then run the normalization loop over the
campaigns.  Any raise anywhere in this path is caught by the enclosing
`except Exception` and diverts to the fallback. -/
def primaryPath (env : Env) : Except String J :=
  match get_campaigns_page env.primary with
  | .error e => .error e
  | .ok (raw, _) => processChildren raw processCampaign

/-- get_campaigns_detailed (meta_client.py lines 204-380): the primary nested
call, or — when anything in it raises — the fallback that re-fetches flat
campaigns and assembles the hierarchy per campaign and per ad set.  A raise by
the fallback's own get_campaigns call propagates out. -/
def get_campaigns_detailed (env : Env) : Except String J :=
  match primaryPath env with
  | .ok v => .ok v
  | .error _ =>
    match get_campaigns env.fallbackCampaigns with
    | .error e => .error e
    | .ok raw => processChildren raw (fallbackCampaign env)

/-- One round of the config-pull loop's backoff update (main.py lines 189-201):
a successful pull resets the delay to 5 seconds; a raise or a non-success
response doubles it, capped at 300 seconds. -/
def pull_config_backoff_step (backoff : Nat) (ok : Bool) : Nat :=
  if ok then 5 else min (backoff * 2) 300

/-- The delay the config-pull loop sleeps before its next attempt, after the
given sequence of attempt outcomes (true = success), starting from 5 seconds. -/
def pull_config_backoff (events : List Bool) : Nat :=
  events.foldl pull_config_backoff_step 5

/-- Python `repr` of a JSON value (as interpolated inside containers). -/
def pyRepr : J → String
  | .null => "None"
  | .bool true => "True"
  | .bool false => "False"
  | .num n => toString n
  | .str s => "'" ++ s ++ "'"
  | .arr l => "[" ++ String.intercalate ", " (l.attach.map fun x => pyRepr x.1) ++ "]"
  | .obj f =>
    "\x7b" ++ String.intercalate ", "
      (f.attach.map fun kv => "'" ++ kv.1.1 ++ "': " ++ pyRepr kv.1.2) ++ "\x7d"
decreasing_by
  · have h1 := List.sizeOf_lt_of_mem x.2
    simp at h1 ⊢
    omega
  · have h1 := List.sizeOf_lt_of_mem kv.2
    obtain ⟨⟨k, v⟩, hmem⟩ := kv
    simp at h1 ⊢
    omega

/-- Python `str()` of a JSON value, as an f-string interpolates it: a string
interpolates as itself, scalars as their repr, containers recursively. -/
def pyStr : J → String
  | .null => "None"
  | .bool true => "True"
  | .bool false => "False"
  | .num n => toString n
  | .str s => s
  | v => pyRepr v

/-- The response object attached to a requests HTTPError: the outcome of
`.json()` (`none` when parsing raises) and the raw `.text`. -/
structure ErrResponse where
  parsed : Option J
  text : String

/-- A Python exception as observed by the status-update handler: its `str(e)`
rendering, and the attached HTTP response when the exception is an HTTPError
carrying one. -/
structure UpdateExc where
  excText : String
  httpResponse : Option ErrResponse

/-- The error normalization of the status-update handler (main.py lines
573-588), producing `(error_message, error_details)`.  Starting from
`str(e)` for both: when the exception is an HTTPError with a response, the body
is parsed; a parsed dict carrying an `error` dict yields the message from the
error object and details `"Meta API Error <code>: <message>"`, with
`" (Subcode: <n>)"` appended when `error_subcode` is present (missing `code` or
`message` default to the empty string); any raise inside that block — an
unparseable body, a non-dict `error` value, or membership on a non-dict body —
falls back to the raw response text; a body that parses to a dict without an
`error` key (or to a list/string without an "error" member) leaves both strings
as the generic `str(e)`. -/
def metaErrorDetails (e : UpdateExc) : String × String :=
  match e.httpResponse with
  | none => (e.excText, e.excText)
  | some r =>
    match r.parsed with
    | none => (e.excText, r.text)
    | some (J.obj fields) =>
      match dictGet fields "error" with
      | some (J.obj ef) =>
        let emsg :=
          match dictGet ef "message" with
          | some m => pyStr m
          | none => e.excText
        let codeStr :=
          match dictGet ef "code" with
          | some c => pyStr c
          | none => ""
        let msgStr :=
          match dictGet ef "message" with
          | some m => pyStr m
          | none => ""
        let base := "Meta API Error " ++ codeStr ++ ": " ++ msgStr
        let details :=
          match dictGet ef "error_subcode" with
          | some sc => base ++ " (Subcode: " ++ pyStr sc ++ ")"
          | none => base
        (emsg, details)
      | some _ => (e.excText, r.text)
      | none => (e.excText, e.excText)
    | some (J.arr l) =>
      if l.any (fun x => match x with | J.str s => s = "error" | _ => false) then
        (e.excText, r.text)
      else (e.excText, e.excText)
    | some (J.str s) =>
      if containsSub s "error" then (e.excText, r.text)
      else (e.excText, e.excText)
    | some _ => (e.excText, r.text)

/-- An error envelope `{"status": "error", "message": msg}` (main.py). -/
def errEnvelope (msg : String) : J :=
  J.obj [("status", J.str "error"), ("message", J.str msg)]

/-- The PUT /meta/adsets/id/status handler (main.py lines 547-594) as a function
of the connectivity-check outcome and the scripted outcome of the upstream
status-update call.  Returns the response envelope together with the ordered
list of network calls the handler issued: the connectivity check always runs
first; validation (`not status`, then membership in the allowed set) runs after
it and, on rejection, returns before the upstream update is issued; otherwise
the upstream update runs and its raise, if any, is normalized into the error
envelope. -/
def update_adset_status (conn : Bool) (upd : Except UpdateExc J)
    (adset_id status : String) : J × List String :=
  if conn = false then
    (errEnvelope "Meta API connection failed", ["test_connection"])
  else if status = "" then
    (errEnvelope "Status is required", ["test_connection"])
  else if status = "ACTIVE" ∨ status = "PAUSED" ∨ status = "ARCHIVED" then
    match upd with
    | .ok result =>
      (J.obj [("status", J.str "success"),
              ("message", J.str ("Ad set " ++ adset_id ++ " status updated to " ++ status)),
              ("adset_id", J.str adset_id),
              ("new_status", J.str status),
              ("data", result)],
       ["test_connection", "update_ad_set_status"])
    | .error e =>
      let p := metaErrorDetails e
      (J.obj [("status", J.str "error"),
              ("message", J.str ("Failed to update ad set " ++ adset_id ++ " status: " ++ p.1)),
              ("error_details", J.str p.2)],
       ["test_connection", "update_ad_set_status"])
  else
    (errEnvelope "Invalid status. Must be ACTIVE, PAUSED, or ARCHIVED",
     ["test_connection"])

/-- Does a node carry a `performance_metrics` key (claims C3)?  Non-dict nodes
carry no keys. -/
def hasPerfKey : J → Bool
  | J.obj fields => (dictGet fields "performance_metrics").isSome
  | _ => false

/-- Does an ad-set node and every ad node below it carry `performance_metrics`?
When the `ads` container is not a sequence there are no ad nodes below. -/
def adSetPerfCheck (a : J) : Bool :=
  hasPerfKey a &&
    match a with
    | J.obj fields =>
      match dictGet fields "ads" with
      | some (J.arr ads) => ads.all hasPerfKey
      | _ => true
    | _ => false

/-- Does a campaign node and every node below it carry `performance_metrics`? -/
def campaignPerfCheck (c : J) : Bool :=
  hasPerfKey c &&
    match c with
    | J.obj fields =>
      match dictGet fields "ad_sets" with
      | some (J.arr l) => l.all adSetPerfCheck
      | _ => true
    | _ => false

/-- Claim C3's invariant on a returned campaigns value: it is a sequence and
every node at every level carries `performance_metrics`. -/
def nodesAllHavePerf : J → Bool
  | J.arr cs => cs.all campaignPerfCheck
  | _ => false

/-- Claim C10's invariant on one campaign: `ad_sets` is present and a sequence,
the original `adsets` key is gone, and every ad set's `ads` is a sequence. -/
def campaignSeqCheck (c : J) : Bool :=
  match c with
  | J.obj fields =>
    (dictGet fields "adsets").isNone &&
    match dictGet fields "ad_sets" with
    | some (J.arr l) =>
      l.all fun a =>
        match a with
        | J.obj af => (dictGet af "ads").isSome &&
            match dictGet af "ads" with
            | some (J.arr _) => true
            | _ => false
        | _ => false
    | _ => false
  | _ => false

/-- Claim C10's invariant on a returned campaigns value. -/
def childContainersAreSeqs : J → Bool
  | J.arr cs => cs.all campaignSeqCheck
  | _ => false

/-- The records of a page body: the list under its `data` key. -/
def dataOf (p : J) : List J :=
  match p with
  | J.obj fields =>
    match dictGet fields "data" with
    | some (J.arr l) => l
    | _ => []
  | _ => []

/-- The records of a page after per-record insights normalization. -/
def normDataOf (p : J) : List J :=
  match exMapM normalizeNode (dataOf p) with
  | .ok l => l
  | .error _ => []

/-- Concatenation of all pages' normalized records, in page order. -/
def normConcat (ps : List J) : List J := (ps.map normDataOf).flatten

/-- Concatenation of all pages' raw records, in page order. -/
def rawConcat (ps : List J) : List J := (ps.map dataOf).flatten

/-- Did the effectful list rewrite succeed? -/
def normListOK : Except String (List J) → Bool
  | .ok _ => true
  | .error _ => false

/-- Is this `data` field a list whose records all normalize? -/
def dataFieldOK : Option J → Bool
  | some (J.arr l) => normListOK (exMapM normalizeNode l)
  | _ => false

/-- A well-formed page: a dict whose `data` is a list of records on which the
insights normalization succeeds. -/
def pageOK (p : J) : Bool :=
  match p with
  | J.obj fields => dataFieldOK (dictGet fields "data")
  | _ => false

/-- Is the condition outcome a clean false? -/
def isOkFalse : Except String Bool → Bool
  | .ok false => true
  | _ => false

/-- Do the guard and link outcomes give a string link with a query string? -/
def okNextQ : Except String Bool → Except String J → Bool
  | .ok true, .ok (J.str u) => hasQuery u
  | _, _ => false

/-- The pagination guard is false on this page (no `paging.next`). -/
def noNextB (p : J) : Bool := isOkFalse (whileCond p)

/-- The page carries a string `paging.next` link containing a query string. -/
def hasNextQB (p : J) : Bool := okNextQ (whileCond p) (nextUrl p)

/-- The link condition a page must satisfy given the pages that follow it: the
last page has no next link, every other page links onward. -/
def linkOK (p : J) : List J → Bool
  | [] => noNextB p
  | _ :: _ => hasNextQB p

/-- A well-formed linked chain of pages: every page is well-formed, every page
but the last links to the next with a parseable URL, and the last page has no
next link. -/
def chainOK : List J → Bool
  | [] => true
  | p :: rest => (pageOK p && linkOK p rest) && chainOK rest

/-- A well-formed run of pages each of which links onward. -/
def chainAllNext : List J → Bool
  | [] => true
  | p :: rest => (pageOK p && hasNextQB p) && chainAllNext rest

/-- The `message` field of a response envelope, as a string. -/
def msgOf (envelope : J) : String :=
  match envelope with
  | J.obj fields =>
    match dictGet fields "message" with
    | some (J.str s) => s
    | _ => ""
  | _ => ""

/-- Is a nested child container well-formed: absent, a list, a dict whose `data`
is a list or absent, or a scalar (all of which the re-keying turns into a list) —
everything except a dict whose `data` value is itself not a list, the one shape
the re-keying passes through raw. -/
def envelopeOK : Option J → Bool
  | some (J.obj f) =>
    (match dictGet f "data" with
     | some (J.arr _) => true
     | none => true
     | some _ => false)
  | _ => true

/-- The ad-set list a campaign's `adsets` container denotes after re-keying. -/
def adsetsListOf (fields : List (String × J)) : List J :=
  match dictGet fields "adsets" with
  | some (J.obj inner) =>
    (match dictGet inner "data" with
     | some (J.arr l) => l
     | _ => [])
  | some (J.arr l) => l
  | _ => []

/-- Claim C10's well-formedness of one raw campaign: its `adsets` envelope is
well-formed and so is the `ads` envelope of each ad set inside it. -/
def campaignEnvOK (fields : List (String × J)) : Bool :=
  envelopeOK (dictGet fields "adsets") &&
    (adsetsListOf fields).all fun a =>
      match a with
      | J.obj af => envelopeOK (dictGet af "ads")
      | _ => true

/-- Does a normalization outcome carry an empty `performance_metrics` record? -/
def perfIsEmptyObs : Except String (List (String × J)) → Bool
  | .ok d =>
    (match dictGet d "performance_metrics" with
     | some (J.obj []) => true
     | _ => false)
  | .error _ => false

/-- The node of claim C2's counterexample: insights carrying one non-empty
metrics record. -/
def c2node : List (String × J) :=
  [("insights", J.arr [J.obj [("spend", J.num 1)]])]

/-- Transport for claim C3's counterexample: the primary nested call raises, the
fallback returns one campaign (no insights anywhere), and its ad-set fetch
returns an empty page. -/
def envC3cex : Env :=
  { primary := [.error "ConnectionError"]
    fallbackCampaigns := .ok (J.obj [("data", J.arr [J.obj [("id", J.str "c1")]])])
    adsetsFor := fun _ => [.ok (J.obj [("data", J.arr [])])]
    adsFor := fun _ => .error "unused" }

/-- Transport for claim C10's counterexample: the primary call succeeds and the
campaign's `adsets` envelope carries an empty dict as its `data` value. -/
def envC10cex : Env :=
  { primary := [.ok (J.obj [("data", J.arr
      [J.obj [("id", J.str "c1"), ("adsets", J.obj [("data", J.obj [])])]])])]
    fallbackCampaigns := .error "unused"
    adsetsFor := fun _ => []
    adsFor := fun _ => .error "unused" }

/-- Transport for claim C6's witness: the primary call raises; the fallback
returns two campaigns; the ad-set fetch raises for campaign c1 and returns two
ad sets for campaign c2; the ad fetch raises for ad set s1 and returns one ad
for ad set s2. -/
def envC6w : Env :=
  { primary := [.error "ConnectionError"]
    fallbackCampaigns := .ok (J.obj [("data", J.arr
      [J.obj [("id", J.str "c1")], J.obj [("id", J.str "c2")]])])
    adsetsFor := fun idv =>
      match idv with
      | J.str "c1" => [.error "ConnectionError"]
      | _ => [.ok (J.obj [("data", J.arr
          [J.obj [("id", J.str "s1")], J.obj [("id", J.str "s2")]])])]
    adsFor := fun idv =>
      match idv with
      | J.str "s1" => .error "ConnectionError"
      | _ => .ok (J.obj [("data", J.arr [J.obj [("id", J.str "ad1")]])]) }

/-- A linked mock page: records plus an optional `paging.next` link. -/
def mockPage (recs : List J) (next : Option String) : J :=
  match next with
  | some u => J.obj [("data", J.arr recs), ("paging", J.obj [("next", J.str u)])]
  | none => J.obj [("data", J.arr recs)]

/-- The three linked mock pages of claim C4's witness. -/
def wpage1 : J := mockPage [J.obj [("id", J.str "a1")]] (some "https://g/x?after=1")

/-- Second witness page. -/
def wpage2 : J := mockPage [J.obj [("id", J.str "a2")]] (some "https://g/x?after=2")

/-- Third witness page, without a next link. -/
def wpage3 : J := mockPage [J.obj [("id", J.str "a3")]] none

/-- A page whose next link carries no query string (unparseable for the
campaigns pagination, which re-issues only the query string). -/
def wpageNoQ : J := mockPage [J.obj [("id", J.str "b1")]] (some "opaque-link")

/-- The exception of claim C9's counterexample: an HTTPError whose response body
parses to a dict that carries no `error` object. -/
def c9exc : UpdateExc :=
  { excText := "500 Server Error"
    httpResponse := some { parsed := some (J.obj [("status", J.str "ok")])
                           text := "plain body text" } }

/-- A raw campaign for claim C10's witness: a well-formed `adsets` envelope
holding one ad set with a well-formed `ads` envelope. -/
def wfieldsC10 : List (String × J) :=
  [("id", J.str "c7"),
   ("adsets", J.obj [("data", J.arr
     [J.obj [("id", J.str "s1"),
             ("ads", J.obj [("data", J.arr [J.obj [("id", J.str "ad1")]])])]])])]

/-- Transport for claim C3's witness: a primary response holding the C10
witness campaign. -/
def envC3w : Env :=
  { primary := [.ok (J.obj [("data", J.arr [J.obj wfieldsC10])])]
    fallbackCampaigns := .error "unused"
    adsetsFor := fun _ => []
    adsFor := fun _ => .error "unused" }

theorem keysOf_nil : keysOf [] = [] := rfl

theorem keysOf_cons (k : String) (v : J) (d : List (String × J)) :
    keysOf ((k, v) :: d) = k :: keysOf d := rfl

theorem dictGet_set_self (d : List (String × J)) (k : String) (v : J) :
    dictGet (dictSet d k v) k = some v := by
  induction d with
  | nil => simp [dictSet, dictGet]
  | cons kv rest ih =>
    obtain ⟨k1, v1⟩ := kv
    by_cases h : k1 = k
    · subst h; simp [dictSet, dictGet]
    · simp [dictSet, dictGet, h, ih]

theorem dictGet_set_ne (d : List (String × J)) (k k2 : String) (v : J)
    (h : k2 ≠ k) : dictGet (dictSet d k v) k2 = dictGet d k2 := by
  induction d with
  | nil => simp [dictSet, dictGet, Ne.symm h]
  | cons kv rest ih =>
    obtain ⟨k1, v1⟩ := kv
    by_cases h1 : k1 = k
    · subst h1
      simp [dictSet, dictGet, Ne.symm h]
    · by_cases h2 : k1 = k2 <;> simp [dictSet, dictGet, h1, h2, ih, h]

theorem dictGet_del_ne (d : List (String × J)) (k k2 : String)
    (h : k2 ≠ k) : dictGet (dictDel d k) k2 = dictGet d k2 := by
  induction d with
  | nil => simp [dictDel]
  | cons kv rest ih =>
    obtain ⟨k1, v1⟩ := kv
    by_cases h1 : k1 = k
    · subst h1
      simp [dictDel, dictGet, Ne.symm h]
    · by_cases h2 : k1 = k2 <;> simp [dictDel, dictGet, h1, h2, ih, h]

theorem mem_keysOf_set (d : List (String × J)) (k k2 : String) (v : J)
    (h : k2 ∈ keysOf (dictSet d k v)) : k2 ∈ keysOf d ∨ k2 = k := by
  induction d with
  | nil =>
    right
    simpa [dictSet, keysOf] using h
  | cons kv rest ih =>
    obtain ⟨k1, v1⟩ := kv
    by_cases h1 : k1 = k
    · subst h1
      left
      simpa [dictSet, keysOf_cons] using h
    · rw [show dictSet ((k1, v1) :: rest) k v = (k1, v1) :: dictSet rest k v by
          simp [dictSet, h1]] at h
      rw [keysOf_cons, List.mem_cons] at h
      rw [keysOf_cons, List.mem_cons]
      rcases h with h | h
      · exact Or.inl (Or.inl h)
      · rcases ih h with h2 | h2
        · exact Or.inl (Or.inr h2)
        · exact Or.inr h2

theorem nodup_keysOf_set (d : List (String × J)) (k : String) (v : J)
    (h : (keysOf d).Nodup) : (keysOf (dictSet d k v)).Nodup := by
  induction d with
  | nil => simp [dictSet, keysOf]
  | cons kv rest ih =>
    obtain ⟨k1, v1⟩ := kv
    rw [keysOf_cons, List.nodup_cons] at h
    by_cases h1 : k1 = k
    · subst h1
      rw [show dictSet ((k1, v1) :: rest) k1 v = (k1, v) :: rest by simp [dictSet]]
      rw [keysOf_cons, List.nodup_cons]
      exact h
    · rw [show dictSet ((k1, v1) :: rest) k v = (k1, v1) :: dictSet rest k v by
          simp [dictSet, h1]]
      rw [keysOf_cons, List.nodup_cons]
      refine ⟨fun hmem => ?_, ih h.2⟩
      rcases mem_keysOf_set rest k k1 v hmem with h2 | h2
      · exact h.1 h2
      · exact h1 h2

theorem dictGet_eq_none_of_not_mem (d : List (String × J)) (k : String)
    (h : k ∉ keysOf d) : dictGet d k = none := by
  induction d with
  | nil => simp [dictGet]
  | cons kv rest ih =>
    obtain ⟨k1, v1⟩ := kv
    rw [keysOf_cons, List.mem_cons] at h
    push_neg at h
    simp [dictGet, Ne.symm h.1, ih h.2]

theorem dictGet_del_self (d : List (String × J)) (k : String)
    (h : (keysOf d).Nodup) : dictGet (dictDel d k) k = none := by
  induction d with
  | nil => simp [dictDel, dictGet]
  | cons kv rest ih =>
    obtain ⟨k1, v1⟩ := kv
    rw [keysOf_cons, List.nodup_cons] at h
    by_cases h1 : k1 = k
    · subst h1
      rw [show dictDel ((k1, v1) :: rest) k1 = rest by simp [dictDel]]
      exact dictGet_eq_none_of_not_mem rest k1 h.1
    · rw [show dictDel ((k1, v1) :: rest) k = (k1, v1) :: dictDel rest k by
          simp [dictDel, h1]]
      simp [dictGet, h1, ih h.2]

theorem dictSet_eq_self_iff (d : List (String × J)) (k : String) (v : J) :
    dictSet d k v = d ↔ dictGet d k = some v := by
  constructor
  · intro h
    have h2 := dictGet_set_self d k v
    rw [h] at h2
    exact h2
  · intro h
    induction d with
    | nil => simp [dictGet] at h
    | cons kv rest ih =>
      obtain ⟨k1, v1⟩ := kv
      by_cases h1 : k1 = k
      · subst h1
        simp only [dictGet, if_pos rfl] at h
        rw [show dictSet ((k1, v1) :: rest) k1 v = (k1, v) :: rest by simp [dictSet]]
        cases h
        rfl
      · simp only [dictGet, h1, if_false] at h
        rw [show dictSet ((k1, v1) :: rest) k v = (k1, v1) :: dictSet rest k v by
            simp [dictSet, h1]]
        rw [ih h]

theorem exMapM_mem_ok {α β : Type} (f : α → Except String β) (l : List α)
    (out : List β) (h : exMapM f l = .ok out) :
    ∀ y ∈ out, ∃ x ∈ l, f x = .ok y := by
  induction l generalizing out with
  | nil =>
    simp only [exMapM, Except.ok.injEq] at h
    subst h; simp
  | cons x xs ih =>
    simp only [exMapM] at h
    cases hfx : f x with
    | error e => rw [hfx] at h; exact absurd h (by simp)
    | ok y =>
      rw [hfx] at h
      cases hrest : exMapM f xs with
      | error e => rw [hrest] at h; exact absurd h (by simp)
      | ok ys =>
        rw [hrest] at h
        simp only [Except.ok.injEq] at h
        subst h
        intro z hz
        rcases List.mem_cons.mp hz with hz | hz
        · exact ⟨x, List.mem_cons_self x xs, hz ▸ hfx⟩
        · rcases ih ys hrest z hz with ⟨w, hw, hfw⟩
          exact ⟨w, List.mem_cons_of_mem x hw, hfw⟩

theorem normalizeFields_perf (fields out : List (String × J))
    (h : normalizeFields fields = .ok out) :
    (dictGet out "performance_metrics").isSome = true := by
  unfold normalizeFields at h
  split at h
  · split at h
    · exact absurd h (by simp)
    · simp only [Except.ok.injEq] at h
      subst h
      rw [dictGet_del_ne _ _ _ (by decide), dictGet_set_self]
      rfl
  · simp only [Except.ok.injEq] at h
    subst h
    simp [dictGet_set_self]

theorem normalizeNode_perf (j out : J) (h : normalizeNode j = .ok out) :
    hasPerfKey out = true := by
  cases j with
  | obj fields =>
    simp only [normalizeNode, Except.map] at h
    cases hnf : normalizeFields fields with
    | error e => rw [hnf] at h; exact absurd h (by simp)
    | ok f2 =>
      rw [hnf] at h
      simp only [Except.ok.injEq] at h
      subst h
      simpa [hasPerfKey] using normalizeFields_perf fields f2 hnf
  | null => exact absurd h (by simp [normalizeNode])
  | bool b => exact absurd h (by simp [normalizeNode])
  | num n => exact absurd h (by simp [normalizeNode])
  | str s => exact absurd h (by simp [normalizeNode])
  | arr l => exact absurd h (by simp [normalizeNode])

theorem keysOf_del_sublist (d : List (String × J)) (k : String) :
    (keysOf (dictDel d k)).Sublist (keysOf d) := by
  induction d with
  | nil => simp [dictDel]
  | cons kv rest ih =>
    obtain ⟨k1, v1⟩ := kv
    by_cases h1 : k1 = k
    · subst h1
      rw [show dictDel ((k1, v1) :: rest) k1 = rest by simp [dictDel]]
      rw [keysOf_cons]
      exact (List.Sublist.refl (keysOf rest)).cons k1
    · rw [show dictDel ((k1, v1) :: rest) k = (k1, v1) :: dictDel rest k by
          simp [dictDel, h1]]
      rw [keysOf_cons, keysOf_cons]
      exact ih.cons₂ k1

theorem nodup_keysOf_del (d : List (String × J)) (k : String)
    (h : (keysOf d).Nodup) : (keysOf (dictDel d k)).Nodup :=
  h.sublist (keysOf_del_sublist d k)

theorem normalizeFields_nodup (fields out : List (String × J))
    (hk : (keysOf fields).Nodup) (h : normalizeFields fields = .ok out) :
    (keysOf out).Nodup := by
  unfold normalizeFields at h
  split at h
  · split at h
    · exact absurd h (by simp)
    · simp only [Except.ok.injEq] at h
      subst h
      exact nodup_keysOf_del _ _ (nodup_keysOf_set _ _ _ hk)
  · simp only [Except.ok.injEq] at h
    subst h
    exact nodup_keysOf_set _ _ _ hk

theorem normalizeFields_get_other (fields out : List (String × J)) (k : String)
    (h : normalizeFields fields = .ok out)
    (h1 : k ≠ "performance_metrics") (h2 : k ≠ "insights") :
    dictGet out k = dictGet fields k := by
  unfold normalizeFields at h
  split at h
  · split at h
    · exact absurd h (by simp)
    · simp only [Except.ok.injEq] at h
      subst h
      rw [dictGet_del_ne _ _ _ h2, dictGet_set_ne _ _ _ _ h1]
  · simp only [Except.ok.injEq] at h
    subst h
    rw [dictGet_set_ne _ _ _ _ h1]

theorem normalizeFields_no_insights (fields out : List (String × J))
    (hk : (keysOf fields).Nodup) (h : normalizeFields fields = .ok out) :
    dictGet out "insights" = none := by
  unfold normalizeFields at h
  split at h
  · split at h
    · exact absurd h (by simp)
    · simp only [Except.ok.injEq] at h
      subst h
      exact dictGet_del_self _ _ (nodup_keysOf_set _ _ _ hk)
  next hins =>
    simp only [Except.ok.injEq] at h
    subst h
    rw [dictGet_set_ne _ _ _ _ (by decide)]
    exact hins

theorem normListOK_elim (x : Except String (List J)) (h : normListOK x = true) :
    ∃ l, x = .ok l := by
  cases x with
  | ok l => exact ⟨l, rfl⟩
  | error e => exact absurd h (by simp [normListOK])

theorem pageOK_elim (p : J) (h : pageOK p = true) :
    ∃ fields l nl, p = J.obj fields ∧ dictGet fields "data" = some (J.arr l) ∧
      exMapM normalizeNode l = .ok nl := by
  cases p with
  | obj fields =>
    simp only [pageOK] at h
    cases hd : dictGet fields "data" with
    | none => rw [hd] at h; exact absurd h (by simp [dataFieldOK])
    | some v =>
      rw [hd] at h
      cases v with
      | arr l =>
        simp only [dataFieldOK] at h
        rcases normListOK_elim _ h with ⟨nl, hnl⟩
        exact ⟨fields, l, nl, rfl, hd, hnl⟩
      | null => exact absurd h (by simp [dataFieldOK])
      | bool b => exact absurd h (by simp [dataFieldOK])
      | num n => exact absurd h (by simp [dataFieldOK])
      | str s => exact absurd h (by simp [dataFieldOK])
      | obj f2 => exact absurd h (by simp [dataFieldOK])
  | null => exact absurd h (by simp [pageOK])
  | bool b => exact absurd h (by simp [pageOK])
  | num n => exact absurd h (by simp [pageOK])
  | str s => exact absurd h (by simp [pageOK])
  | arr l => exact absurd h (by simp [pageOK])

theorem noNextB_elim (p : J) (h : noNextB p = true) : whileCond p = .ok false := by
  unfold noNextB at h
  cases hw : whileCond p with
  | error e => rw [hw] at h; exact absurd h (by simp [isOkFalse])
  | ok b =>
    cases b with
    | false => rfl
    | true => rw [hw] at h; exact absurd h (by simp [isOkFalse])

theorem hasNextQB_elim (p : J) (h : hasNextQB p = true) :
    whileCond p = .ok true ∧ ∃ u, nextUrl p = .ok (J.str u) ∧ hasQuery u = true := by
  unfold hasNextQB at h
  cases hw : whileCond p with
  | error e => rw [hw] at h; exact absurd h (by simp [okNextQ])
  | ok b =>
    cases b with
    | false => rw [hw] at h; exact absurd h (by simp [okNextQ])
    | true =>
      rw [hw] at h
      refine ⟨rfl, ?_⟩
      cases hn : nextUrl p with
      | error e => rw [hn] at h; exact absurd h (by simp [okNextQ])
      | ok u =>
        rw [hn] at h
        cases u with
        | str s => exact ⟨s, rfl, by simpa [okNextQ] using h⟩
        | null => exact absurd h (by simp [okNextQ])
        | bool b2 => exact absurd h (by simp [okNextQ])
        | num n2 => exact absurd h (by simp [okNextQ])
        | arr l2 => exact absurd h (by simp [okNextQ])
        | obj f2 => exact absurd h (by simp [okNextQ])

theorem processChildren_cases (v : J) (f : J → Except String J) (out : J)
    (h : processChildren v f = .ok out) :
    (∃ l l2, v = J.arr l ∧ exMapM f l = .ok l2 ∧ out = J.arr l2) ∨
      out = J.obj [] ∨ out = J.str "" := by
  cases v with
  | arr l =>
    simp only [processChildren] at h
    cases hm : exMapM f l with
    | error e => rw [hm] at h; exact absurd h (by simp)
    | ok l2 =>
      rw [hm] at h
      simp only [Except.ok.injEq] at h
      exact Or.inl ⟨l, l2, rfl, hm, h.symm⟩
  | obj fields =>
    cases fields with
    | nil =>
      simp only [processChildren, Except.ok.injEq] at h
      exact Or.inr (Or.inl h.symm)
    | cons kv rest => exact absurd h (by simp [processChildren])
  | str s =>
    rcases hs : s.data with _ | ⟨c, cs⟩
    · have hse : s = "" := by
        cases s; simp at hs; simp [hs]
      subst hse
      simp only [processChildren, Except.ok.injEq] at h
      exact Or.inr (Or.inr h.symm)
    · have hne : s ≠ "" := by
        intro hh; subst hh; simp at hs
      rw [show processChildren (J.str s) f = .error "TypeError" by
          cases s with
          | mk data =>
            cases data with
            | nil => simp at hs
            | cons c2 cs2 => rfl] at h
      exact absurd h (by simp)
  | null => exact absurd h (by simp [processChildren])
  | bool b => exact absurd h (by simp [processChildren])
  | num n => exact absurd h (by simp [processChildren])

theorem dataOf_eq (fields : List (String × J)) (l : List J)
    (hd : dictGet fields "data" = some (J.arr l)) : dataOf (J.obj fields) = l := by
  simp [dataOf, hd]

theorem normDataOf_eq (fields : List (String × J)) (l nl : List J)
    (hd : dictGet fields "data" = some (J.arr l))
    (hm : exMapM normalizeNode l = .ok nl) : normDataOf (J.obj fields) = nl := by
  simp [normDataOf, dataOf, hd, hm]

theorem getDataRaw_eq (fields : List (String × J)) (l : List J)
    (hd : dictGet fields "data" = some (J.arr l)) :
    getDataRaw (J.obj fields) = .ok (J.arr l) := by
  simp [getDataRaw, hd]

theorem chainOK_cons (q : J) (qs : List J) (h : chainOK (q :: qs) = true) :
    pageOK q = true ∧ linkOK q qs = true ∧ chainOK qs = true := by
  have h2 : ((pageOK q && linkOK q qs) && chainOK qs) = true := h
  simp only [Bool.and_eq_true] at h2
  exact ⟨h2.1.1, h2.1.2, h2.2⟩

theorem adsetsStep_norm (acc : List J) (fields : List (String × J)) (l nl : List J)
    (hd : dictGet fields "data" = some (J.arr l))
    (hm : exMapM normalizeNode l = .ok nl) :
    adsetsStep (J.arr acc) (J.obj fields) = .ok (J.arr (acc ++ nl)) := by
  simp [adsetsStep, getDataRaw, hd, processChildren, hm, extendPy]

theorem campaignsStep_raw (acc : List J) (fields : List (String × J)) (l : List J)
    (hd : dictGet fields "data" = some (J.arr l)) :
    campaignsStep (J.arr acc) (J.obj fields) = .ok (J.arr (acc ++ l)) := by
  simp [campaignsStep, getDataRaw, hd, extendPy]

theorem get_ad_sets_loop_chain (rest : List J) : ∀ (p : J) (acc : List J),
    linkOK p rest = true → chainOK rest = true →
    get_ad_sets_loop p (J.arr acc) (rest.map Except.ok) =
      .ok (J.arr (acc ++ normConcat rest), rest.length) := by
  induction rest with
  | nil =>
    intro p acc h1 _
    have hw := noNextB_elim p h1
    simp [get_ad_sets_loop, hw, normConcat]
  | cons q qs ih =>
    intro p acc h1 hchain
    obtain ⟨hwt, u, hnu, _⟩ := hasNextQB_elim p h1
    obtain ⟨hpq, hmid, hrest⟩ := chainOK_cons q qs hchain
    obtain ⟨fields, l, nl, hpf, hd, hm⟩ := pageOK_elim q hpq
    subst hpf
    rw [List.map_cons]
    simp only [get_ad_sets_loop, hwt, hnu]
    simp only [adsetsStep_norm acc fields l nl hd hm,
      ih (J.obj fields) (acc ++ nl) hmid hrest]
    simp [normConcat, normDataOf_eq fields l nl hd hm, List.append_assoc]

theorem chainAllNext_cons (q : J) (qs : List J) (h : chainAllNext (q :: qs) = true) :
    pageOK q = true ∧ hasNextQB q = true ∧ chainAllNext qs = true := by
  have h2 : ((pageOK q && hasNextQB q) && chainAllNext qs) = true := h
  simp only [Bool.and_eq_true] at h2
  exact ⟨h2.1.1, h2.1.2, h2.2⟩

theorem get_ad_sets_loop_fail (pages : List J) :
    ∀ (p : J) (acc : List J) (e : String) (tail : List (Except String J)),
    hasNextQB p = true → chainAllNext pages = true →
    get_ad_sets_loop p (J.arr acc) (pages.map Except.ok ++ Except.error e :: tail) =
      .ok (J.arr (acc ++ normConcat pages), pages.length + 1) := by
  induction pages with
  | nil =>
    intro p acc e tail h1 _
    obtain ⟨hwt, u, hnu, _⟩ := hasNextQB_elim p h1
    simp [get_ad_sets_loop, hwt, hnu, normConcat]
  | cons q qs ih =>
    intro p acc e tail h1 hchain
    obtain ⟨hwt, u, hnu, _⟩ := hasNextQB_elim p h1
    obtain ⟨hpq, hnq, hrest⟩ := chainAllNext_cons q qs hchain
    obtain ⟨fields, l, nl, hpf, hd, hm⟩ := pageOK_elim q hpq
    subst hpf
    rw [List.map_cons, List.cons_append]
    simp only [get_ad_sets_loop, hwt, hnu]
    simp only [adsetsStep_norm acc fields l nl hd hm,
      ih (J.obj fields) (acc ++ nl) e tail hnq hrest]
    simp [normConcat, normDataOf_eq fields l nl hd hm, List.append_assoc]

theorem get_campaigns_loop_chain (rest : List J) : ∀ (p : J) (acc : List J),
    linkOK p rest = true → chainOK rest = true →
    get_campaigns_loop p (J.arr acc) (rest.map Except.ok) =
      .ok (J.arr (acc ++ rawConcat rest), rest.length) := by
  induction rest with
  | nil =>
    intro p acc h1 _
    have hw := noNextB_elim p h1
    simp [get_campaigns_loop, hw, rawConcat]
  | cons q qs ih =>
    intro p acc h1 hchain
    obtain ⟨hwt, u, hnu, hq⟩ := hasNextQB_elim p h1
    obtain ⟨hpq, hmid, hrest⟩ := chainOK_cons q qs hchain
    obtain ⟨fields, l, nl, hpf, hd, hm⟩ := pageOK_elim q hpq
    subst hpf
    rw [List.map_cons]
    simp only [get_campaigns_loop, hwt, hnu, hq, if_true]
    simp only [campaignsStep_raw acc fields l hd,
      ih (J.obj fields) (acc ++ l) hmid hrest]
    simp [rawConcat, dataOf_eq fields l hd, List.append_assoc]

theorem get_campaigns_loop_unparseable (p : J) (acc : List J) (u : String)
    (script : List (Except String J))
    (hwt : whileCond p = .ok true) (hnu : nextUrl p = .ok (J.str u))
    (hq : hasQuery u = false) :
    get_campaigns_loop p (J.arr acc) script = .ok (J.arr acc, 0) := by
  cases script with
  | nil => simp [get_campaigns_loop, hwt]
  | cons r rest => simp [get_campaigns_loop, hwt, hnu, hq]

theorem firstItem_claimed (fields : List (String × J)) (ins : J)
    (hins : dictGet fields "insights" = some ins)
    (hw : insightsDataIsList fields = true) :
    firstItemOrEmpty (candidateOf ins) = .ok (claimedMetrics fields) := by
  cases ins with
  | obj inner =>
    cases hd : dictGet inner "data" with
    | none => simp [candidateOf, hd, firstItemOrEmpty, claimedMetrics, hins]
    | some v =>
      cases v with
      | arr l =>
        cases l with
        | nil => simp [candidateOf, hd, firstItemOrEmpty, claimedMetrics, hins]
        | cons x xs => simp [candidateOf, hd, firstItemOrEmpty, claimedMetrics, hins]
      | null => simp [insightsDataIsList, hins, hd] at hw
      | bool b => simp [insightsDataIsList, hins, hd] at hw
      | num n => simp [insightsDataIsList, hins, hd] at hw
      | str s => simp [insightsDataIsList, hins, hd] at hw
      | obj f2 => simp [insightsDataIsList, hins, hd] at hw
  | arr l =>
    cases l with
    | nil => simp [candidateOf, firstItemOrEmpty, claimedMetrics, hins]
    | cons x xs => simp [candidateOf, firstItemOrEmpty, claimedMetrics, hins]
  | null => simp [candidateOf, firstItemOrEmpty, claimedMetrics, hins]
  | bool b => simp [candidateOf, firstItemOrEmpty, claimedMetrics, hins]
  | num n => simp [candidateOf, firstItemOrEmpty, claimedMetrics, hins]
  | str s => simp [candidateOf, firstItemOrEmpty, claimedMetrics, hins]

theorem backoff_foldl_le (events : List Bool) :
    ∀ b, b ≤ 300 → List.foldl pull_config_backoff_step b events ≤ 300 := by
  induction events with
  | nil => intro b hb; simpa using hb
  | cons e rest ih =>
    intro b hb
    rw [List.foldl_cons]
    apply ih
    cases e with
    | true => simp [pull_config_backoff_step]
    | false => simp [pull_config_backoff_step]

theorem backoff_replicate_false (n : Nat) :
    List.foldl pull_config_backoff_step 5 (List.replicate n false) =
      min (5 * 2 ^ n) 300 := by
  induction n with
  | zero => simp
  | succ n ih =>
    rw [List.replicate_succ', List.foldl_append, ih, List.foldl_cons, List.foldl_nil]
    simp only [pull_config_backoff_step, if_neg Bool.false_ne_true]
    have h2 : 5 * 2 ^ (n + 1) = 5 * 2 ^ n * 2 := by rw [pow_succ]; ring
    rcases le_total (5 * 2 ^ n) 300 with h | h
    · rw [min_eq_left h, h2]
    · rw [min_eq_right h]
      have h3 : 300 ≤ 5 * 2 ^ (n + 1) := by
        refine le_trans h ?_
        rw [h2]
        exact Nat.le_mul_of_pos_right _ (by norm_num)
      rw [min_eq_right h3]
      norm_num

theorem exMapM_all_perf (l nl : List J) (h : exMapM normalizeNode l = .ok nl) :
    nl.all hasPerfKey = true := by
  rw [List.all_eq_true]
  intro y hy
  rcases exMapM_mem_ok normalizeNode l nl h y hy with ⟨x, _, hfx⟩
  exact normalizeNode_perf x y hfx

theorem rekeyAds_get_other (fields : List (String × J)) (k : String)
    (hne : k ≠ "ads") : dictGet (rekeyAds fields) k = dictGet fields k := by
  cases hads : dictGet fields "ads" with
  | none => simp [rekeyAds, hads, dictGet_set_ne _ _ _ _ hne]
  | some v =>
    cases v with
    | obj inner =>
      cases hd : dictGet inner "data" with
      | none => simp [rekeyAds, hads, hd, dictGet_set_ne _ _ _ _ hne]
      | some d => simp [rekeyAds, hads, hd, dictGet_set_ne _ _ _ _ hne]
    | arr l => simp [rekeyAds, hads]
    | null => simp [rekeyAds, hads, dictGet_set_ne _ _ _ _ hne]
    | bool b => simp [rekeyAds, hads, dictGet_set_ne _ _ _ _ hne]
    | num n => simp [rekeyAds, hads, dictGet_set_ne _ _ _ _ hne]
    | str s => simp [rekeyAds, hads, dictGet_set_ne _ _ _ _ hne]

theorem rekeyAdsets_get_other (fields : List (String × J)) (k : String)
    (h1 : k ≠ "ad_sets") (h2 : k ≠ "adsets") :
    dictGet (rekeyAdsets fields) k = dictGet fields k := by
  cases hads : dictGet fields "adsets" with
  | none => simp [rekeyAdsets, hads, dictGet_set_ne _ _ _ _ h1]
  | some v =>
    simp [rekeyAdsets, hads, dictGet_del_ne _ _ _ h2, dictGet_set_ne _ _ _ _ h1]

theorem processAdSet_check (a out : J) (h : processAdSet a = .ok out) :
    adSetPerfCheck out = true := by
  cases a with
  | obj fields =>
    simp only [processAdSet] at h
    cases hnf : normalizeFields fields with
    | error e => simp [hnf] at h
    | ok f1 =>
      simp only [hnf] at h
      cases hpc : processChildren ((dictGet (rekeyAds f1) "ads").getD (J.arr []))
          normalizeNode with
      | error e => simp [hpc] at h
      | ok newAds =>
        simp only [hpc, Except.ok.injEq] at h
        subst h
        unfold adSetPerfCheck
        rw [Bool.and_eq_true]
        constructor
        · show (dictGet (dictSet (rekeyAds f1) "ads" newAds) "performance_metrics").isSome
            = true
          rw [dictGet_set_ne _ _ _ _ (by decide), rekeyAds_get_other _ _ (by decide)]
          exact normalizeFields_perf fields f1 hnf
        · show (match dictGet (dictSet (rekeyAds f1) "ads" newAds) "ads" with
              | some (J.arr ads) => ads.all hasPerfKey
              | _ => true) = true
          rw [dictGet_set_self]
          rcases processChildren_cases _ _ _ hpc with ⟨l, l2, _, hm, hout⟩ | hout | hout
          · subst hout
            exact exMapM_all_perf l l2 hm
          · subst hout; rfl
          · subst hout; rfl
  | null => simp [processAdSet] at h
  | bool b => simp [processAdSet] at h
  | num n => simp [processAdSet] at h
  | str s => simp [processAdSet] at h
  | arr l => simp [processAdSet] at h

theorem exMapM_all_adset_check (l nl : List J) (h : exMapM processAdSet l = .ok nl) :
    nl.all adSetPerfCheck = true := by
  rw [List.all_eq_true]
  intro y hy
  rcases exMapM_mem_ok processAdSet l nl h y hy with ⟨x, _, hfx⟩
  exact processAdSet_check x y hfx

theorem processCampaign_check (c out : J) (h : processCampaign c = .ok out) :
    campaignPerfCheck out = true := by
  cases c with
  | obj fields =>
    simp only [processCampaign] at h
    cases hnf : normalizeFields fields with
    | error e => simp [hnf] at h
    | ok f1 =>
      simp only [hnf] at h
      cases hpc : processChildren ((dictGet (rekeyAdsets f1) "ad_sets").getD (J.arr []))
          processAdSet with
      | error e => simp [hpc] at h
      | ok newAS =>
        simp only [hpc, Except.ok.injEq] at h
        subst h
        unfold campaignPerfCheck
        rw [Bool.and_eq_true]
        constructor
        · show (dictGet (dictSet (rekeyAdsets f1) "ad_sets" newAS) "performance_metrics").isSome
            = true
          rw [dictGet_set_ne _ _ _ _ (by decide),
            rekeyAdsets_get_other _ _ (by decide) (by decide)]
          exact normalizeFields_perf fields f1 hnf
        · show (match dictGet (dictSet (rekeyAdsets f1) "ad_sets" newAS) "ad_sets" with
              | some (J.arr l) => l.all adSetPerfCheck
              | _ => true) = true
          rw [dictGet_set_self]
          rcases processChildren_cases _ _ _ hpc with ⟨l, l2, _, hm, hout⟩ | hout | hout
          · subst hout
            exact exMapM_all_adset_check l l2 hm
          · subst hout; rfl
          · subst hout; rfl
  | null => simp [processCampaign] at h
  | bool b => simp [processCampaign] at h
  | num n => simp [processCampaign] at h
  | str s => simp [processCampaign] at h
  | arr l => simp [processCampaign] at h

theorem primaryPath_perf (env : Env) (cs : List J)
    (h : primaryPath env = .ok (J.arr cs)) : cs.all campaignPerfCheck = true := by
  unfold primaryPath at h
  cases hp : get_campaigns_page env.primary with
  | error e => simp [hp] at h
  | ok pr =>
    obtain ⟨raw, n⟩ := pr
    simp only [hp] at h
    rcases processChildren_cases raw processCampaign (J.arr cs) h with
      ⟨l, l2, _, hm, hout⟩ | hout | hout
    · have hcs : cs = l2 := by injection hout
      rw [← hcs] at hm
      rw [List.all_eq_true]
      intro y hy
      rcases exMapM_mem_ok processCampaign l cs hm y hy with ⟨x, _, hfx⟩
      exact processCampaign_check x y hfx
    · exact absurd hout (by simp)
    · exact absurd hout (by simp)

theorem extendPy_nil_obj (accl : List J) : extendPy accl (J.obj []) = .ok accl := by
  simp [extendPy]

theorem extendPy_nil_str (accl : List J) : extendPy accl (J.str "") = .ok accl := by
  simp [extendPy]

theorem adsetsStep_perf (accl : List J) (page acc2 : J)
    (h : adsetsStep (J.arr accl) page = .ok acc2)
    (hacc : accl.all hasPerfKey = true) :
    ∃ acc2l, acc2 = J.arr acc2l ∧ acc2l.all hasPerfKey = true := by
  unfold adsetsStep at h
  cases hg : getDataRaw page with
  | error e => simp [hg] at h
  | ok raw =>
    simp only [hg] at h
    cases hpc : processChildren raw normalizeNode with
    | error e => simp [hpc] at h
    | ok processed =>
      simp only [hpc] at h
      rcases processChildren_cases _ _ _ hpc with ⟨l, l2, _, hm, hout⟩ | hout | hout
      · subst hout
        simp only [extendPy, Except.ok.injEq] at h
        refine ⟨accl ++ l2, h.symm, ?_⟩
        rw [List.all_append, Bool.and_eq_true]
        exact ⟨hacc, exMapM_all_perf l l2 hm⟩
      · subst hout
        rw [extendPy_nil_obj] at h
        simp only [Except.ok.injEq] at h
        exact ⟨accl, h.symm, hacc⟩
      · subst hout
        rw [extendPy_nil_str] at h
        simp only [Except.ok.injEq] at h
        exact ⟨accl, h.symm, hacc⟩

theorem get_ad_sets_loop_perf (script : List (Except String J)) :
    ∀ (p : J) (accl outl : List J) (n : Nat),
    get_ad_sets_loop p (J.arr accl) script = .ok (J.arr outl, n) →
    accl.all hasPerfKey = true → outl.all hasPerfKey = true := by
  induction script with
  | nil =>
    intro p accl outl n h hacc
    simp only [get_ad_sets_loop] at h
    cases hw : whileCond p with
    | error e => simp [hw] at h
    | ok b =>
      simp only [hw, Except.ok.injEq, Prod.mk.injEq] at h
      rw [← show accl = outl by injection h.1] 
      exact hacc
  | cons r rest ih =>
    intro p accl outl n h hacc
    simp only [get_ad_sets_loop] at h
    cases hw : whileCond p with
    | error e => simp [hw] at h
    | ok b =>
      cases b with
      | false =>
        simp only [hw, Except.ok.injEq, Prod.mk.injEq] at h
        rw [← show accl = outl by injection h.1]
        exact hacc
      | true =>
        simp only [hw] at h
        cases hn : nextUrl p with
        | error e =>
          simp only [hn, Except.ok.injEq, Prod.mk.injEq] at h
          rw [← show accl = outl by injection h.1]
          exact hacc
        | ok u =>
          simp only [hn] at h
          cases r with
          | error e =>
            simp only [Except.ok.injEq, Prod.mk.injEq] at h
            rw [← show accl = outl by injection h.1]
            exact hacc
          | ok page =>
            cases hs : adsetsStep (J.arr accl) page with
            | error e =>
              simp only [hs, Except.ok.injEq, Prod.mk.injEq] at h
              rw [← show accl = outl by injection h.1]
              exact hacc
            | ok acc2 =>
              simp only [hs] at h
              cases hloop : get_ad_sets_loop page acc2 rest with
              | error e => simp [hloop] at h
              | ok pr =>
                obtain ⟨res, m⟩ := pr
                simp only [hloop, Except.ok.injEq, Prod.mk.injEq] at h
                rcases adsetsStep_perf accl page acc2 hs hacc with ⟨acc2l, hq, hall⟩
                subst hq
                rw [h.1] at hloop
                exact ih page acc2l outl m hloop hall

theorem adsetsStep_nonarr (acc page : J) (hna : ∀ l, acc ≠ J.arr l) :
    ∀ v, adsetsStep acc page ≠ .ok v := by
  intro v h
  unfold adsetsStep at h
  cases hg : getDataRaw page with
  | error e => simp [hg] at h
  | ok raw =>
    simp only [hg] at h
    cases hpc : processChildren raw normalizeNode with
    | error e => simp [hpc] at h
    | ok processed =>
      simp only [hpc] at h
      cases acc with
      | arr l => exact hna l rfl
      | null => simp at h
      | bool b => simp at h
      | num n => simp at h
      | str s => simp at h
      | obj f => simp at h

theorem get_ad_sets_loop_nonarr (script : List (Except String J)) :
    ∀ (p acc r : J) (n : Nat), (∀ l, acc ≠ J.arr l) →
    get_ad_sets_loop p acc script = .ok (r, n) → r = acc := by
  induction script with
  | nil =>
    intro p acc r n hna h
    simp only [get_ad_sets_loop] at h
    cases hw : whileCond p with
    | error e => simp [hw] at h
    | ok b =>
      simp only [hw, Except.ok.injEq, Prod.mk.injEq] at h
      exact h.1.symm
  | cons s rest ih =>
    intro p acc r n hna h
    simp only [get_ad_sets_loop] at h
    cases hw : whileCond p with
    | error e => simp [hw] at h
    | ok b =>
      cases b with
      | false =>
        simp only [hw, Except.ok.injEq, Prod.mk.injEq] at h
        exact h.1.symm
      | true =>
        simp only [hw] at h
        cases hn : nextUrl p with
        | error e =>
          simp only [hn, Except.ok.injEq, Prod.mk.injEq] at h
          exact h.1.symm
        | ok u =>
          simp only [hn] at h
          cases s with
          | error e =>
            simp only [Except.ok.injEq, Prod.mk.injEq] at h
            exact h.1.symm
          | ok page =>
            cases hs : adsetsStep acc page with
            | error e =>
              simp only [hs, Except.ok.injEq, Prod.mk.injEq] at h
              exact h.1.symm
            | ok acc2 => exact absurd hs (adsetsStep_nonarr acc page hna acc2)

theorem get_ad_sets_perf (script : List (Except String J)) (outl : List J) (n : Nat)
    (h : get_ad_sets script = .ok (J.arr outl, n)) : outl.all hasPerfKey = true := by
  unfold get_ad_sets at h
  cases script with
  | nil => simp at h
  | cons r rest =>
    cases r with
    | error e => simp at h
    | ok data =>
      simp only at h
      cases hg : getDataRaw data with
      | error e => simp [hg] at h
      | ok raw =>
        simp only [hg] at h
        cases hpc : processChildren raw normalizeNode with
        | error e => simp [hpc] at h
        | ok firstRecords =>
          simp only [hpc] at h
          cases hloop : get_ad_sets_loop data firstRecords rest with
          | error e => simp [hloop] at h
          | ok pr =>
            obtain ⟨res, m⟩ := pr
            simp only [hloop, Except.ok.injEq, Prod.mk.injEq] at h
            rw [h.1] at hloop
            rcases processChildren_cases _ _ _ hpc with ⟨l, l2, _, hm, hout⟩ | hout | hout
            · subst hout
              exact get_ad_sets_loop_perf rest data l2 outl m hloop
                (exMapM_all_perf l l2 hm)
            · subst hout
              have := get_ad_sets_loop_nonarr rest data (J.obj []) (J.arr outl) m
                (by intro l hl; exact absurd hl (by simp)) hloop
              exact absurd this (by simp)
            · subst hout
              have := get_ad_sets_loop_nonarr rest data (J.str "") (J.arr outl) m
                (by intro l hl; exact absurd hl (by simp)) hloop
              exact absurd this (by simp)

theorem obs_ne {α β : Type} (f : α → β) {a b : α} {x y : β}
    (ha : f a = x) (hb : f b = y) (hxy : x ≠ y) : a ≠ b := by
  intro h
  subst h
  exact hxy (ha.symm.trans hb)

theorem processChildren_arr (l : List J) (f : J → Except String J) (out : J)
    (h : processChildren (J.arr l) f = .ok out) :
    ∃ l2, exMapM f l = .ok l2 ∧ out = J.arr l2 := by
  simp only [processChildren] at h
  cases hm : exMapM f l with
  | error e => simp [hm] at h
  | ok l2 =>
    simp only [hm, Except.ok.injEq] at h
    exact ⟨l2, rfl, h.symm⟩

theorem rekeyAds_ads_arr (fields : List (String × J))
    (he : envelopeOK (dictGet fields "ads") = true) :
    ∃ l, dictGet (rekeyAds fields) "ads" = some (J.arr l) := by
  cases hads : dictGet fields "ads" with
  | none => exact ⟨[], by simp [rekeyAds, hads, dictGet_set_self]⟩
  | some v =>
    cases v with
    | obj inner =>
      cases hd : dictGet inner "data" with
      | none => exact ⟨[], by simp [rekeyAds, hads, hd, dictGet_set_self]⟩
      | some d =>
        cases d with
        | arr l => exact ⟨l, by simp [rekeyAds, hads, hd, dictGet_set_self]⟩
        | null => simp [envelopeOK, hads, hd] at he
        | bool b => simp [envelopeOK, hads, hd] at he
        | num n => simp [envelopeOK, hads, hd] at he
        | str s => simp [envelopeOK, hads, hd] at he
        | obj f2 => simp [envelopeOK, hads, hd] at he
    | arr l => exact ⟨l, by simp [rekeyAds, hads]⟩
    | null => exact ⟨[], by simp [rekeyAds, hads, dictGet_set_self]⟩
    | bool b => exact ⟨[], by simp [rekeyAds, hads, dictGet_set_self]⟩
    | num n => exact ⟨[], by simp [rekeyAds, hads, dictGet_set_self]⟩
    | str s => exact ⟨[], by simp [rekeyAds, hads, dictGet_set_self]⟩

theorem rekeyAdsets_ad_sets (fields : List (String × J))
    (he : envelopeOK (dictGet fields "adsets") = true) :
    dictGet (rekeyAdsets fields) "ad_sets" = some (J.arr (adsetsListOf fields)) := by
  cases hads : dictGet fields "adsets" with
  | none =>
    simp [rekeyAdsets, hads, dictGet_set_self, adsetsListOf]
  | some v =>
    cases v with
    | obj inner =>
      cases hd : dictGet inner "data" with
      | none =>
        simp [rekeyAdsets, hads, hd, adsetsListOf,
          dictGet_del_ne _ _ _ (by decide : ("ad_sets" : String) ≠ "adsets"),
          dictGet_set_self]
      | some d =>
        cases d with
        | arr l =>
          simp [rekeyAdsets, hads, hd, adsetsListOf,
            dictGet_del_ne _ _ _ (by decide : ("ad_sets" : String) ≠ "adsets"),
            dictGet_set_self]
        | null => simp [envelopeOK, hads, hd] at he
        | bool b => simp [envelopeOK, hads, hd] at he
        | num n => simp [envelopeOK, hads, hd] at he
        | str s => simp [envelopeOK, hads, hd] at he
        | obj f2 => simp [envelopeOK, hads, hd] at he
    | arr l =>
      simp [rekeyAdsets, hads, adsetsListOf,
        dictGet_del_ne _ _ _ (by decide : ("ad_sets" : String) ≠ "adsets"),
        dictGet_set_self]
    | null =>
      simp [rekeyAdsets, hads, adsetsListOf,
        dictGet_del_ne _ _ _ (by decide : ("ad_sets" : String) ≠ "adsets"),
        dictGet_set_self]
    | bool b =>
      simp [rekeyAdsets, hads, adsetsListOf,
        dictGet_del_ne _ _ _ (by decide : ("ad_sets" : String) ≠ "adsets"),
        dictGet_set_self]
    | num n =>
      simp [rekeyAdsets, hads, adsetsListOf,
        dictGet_del_ne _ _ _ (by decide : ("ad_sets" : String) ≠ "adsets"),
        dictGet_set_self]
    | str s =>
      simp [rekeyAdsets, hads, adsetsListOf,
        dictGet_del_ne _ _ _ (by decide : ("ad_sets" : String) ≠ "adsets"),
        dictGet_set_self]

theorem rekeyAdsets_no_adsets (fields : List (String × J))
    (hk : (keysOf fields).Nodup) :
    dictGet (rekeyAdsets fields) "adsets" = none := by
  cases hads : dictGet fields "adsets" with
  | none =>
    rw [show rekeyAdsets fields = dictSet fields "ad_sets" (J.arr []) by
        simp [rekeyAdsets, hads]]
    rw [dictGet_set_ne _ _ _ _ (by decide)]
    exact hads
  | some v =>
    cases v with
    | obj inner =>
      rw [show rekeyAdsets fields = dictDel
          (dictSet fields "ad_sets" ((dictGet inner "data").getD (J.arr []))) "adsets" by
          simp [rekeyAdsets, hads]]
      exact dictGet_del_self _ _ (nodup_keysOf_set _ _ _ hk)
    | arr l =>
      rw [show rekeyAdsets fields = dictDel
          (dictSet fields "ad_sets" (J.arr l)) "adsets" by simp [rekeyAdsets, hads]]
      exact dictGet_del_self _ _ (nodup_keysOf_set _ _ _ hk)
    | null =>
      rw [show rekeyAdsets fields = dictDel
          (dictSet fields "ad_sets" (J.arr [])) "adsets" by simp [rekeyAdsets, hads]]
      exact dictGet_del_self _ _ (nodup_keysOf_set _ _ _ hk)
    | bool b =>
      rw [show rekeyAdsets fields = dictDel
          (dictSet fields "ad_sets" (J.arr [])) "adsets" by simp [rekeyAdsets, hads]]
      exact dictGet_del_self _ _ (nodup_keysOf_set _ _ _ hk)
    | num n =>
      rw [show rekeyAdsets fields = dictDel
          (dictSet fields "ad_sets" (J.arr [])) "adsets" by simp [rekeyAdsets, hads]]
      exact dictGet_del_self _ _ (nodup_keysOf_set _ _ _ hk)
    | str s =>
      rw [show rekeyAdsets fields = dictDel
          (dictSet fields "ad_sets" (J.arr [])) "adsets" by simp [rekeyAdsets, hads]]
      exact dictGet_del_self _ _ (nodup_keysOf_set _ _ _ hk)

theorem adsetsListOf_congr (f1 f2 : List (String × J))
    (h : dictGet f1 "adsets" = dictGet f2 "adsets") :
    adsetsListOf f1 = adsetsListOf f2 := by
  unfold adsetsListOf
  rw [h]

theorem processAdSet_seq (af : List (String × J)) (out : J)
    (he : envelopeOK (dictGet af "ads") = true)
    (h : processAdSet (J.obj af) = .ok out) :
    ∃ g, out = J.obj g ∧ ∃ l, dictGet g "ads" = some (J.arr l) := by
  simp only [processAdSet] at h
  cases hnf : normalizeFields af with
  | error e => simp [hnf] at h
  | ok f1 =>
    simp only [hnf] at h
    have hads1 : dictGet f1 "ads" = dictGet af "ads" :=
      normalizeFields_get_other af f1 "ads" hnf (by decide) (by decide)
    rcases rekeyAds_ads_arr f1 (hads1 ▸ he) with ⟨l, hl⟩
    rw [hl] at h
    simp only [Option.getD] at h
    cases hpc : processChildren (J.arr l) normalizeNode with
    | error e => simp [hpc] at h
    | ok newAds =>
      simp only [hpc, Except.ok.injEq] at h
      subst h
      rcases processChildren_arr l normalizeNode newAds hpc with ⟨l2, _, hout⟩
      subst hout
      exact ⟨dictSet (rekeyAds f1) "ads" (J.arr l2), rfl, l2, dictGet_set_self _ _ _⟩

theorem processCampaign_seq (fields : List (String × J)) (out : J)
    (hk : (keysOf fields).Nodup) (he : campaignEnvOK fields = true)
    (h : processCampaign (J.obj fields) = .ok out) :
    campaignSeqCheck out = true := by
  rw [campaignEnvOK, Bool.and_eq_true] at he
  simp only [processCampaign] at h
  cases hnf : normalizeFields fields with
  | error e => simp [hnf] at h
  | ok f1 =>
    simp only [hnf] at h
    have hads1 : dictGet f1 "adsets" = dictGet fields "adsets" :=
      normalizeFields_get_other fields f1 "adsets" hnf (by decide) (by decide)
    have hsets : dictGet (rekeyAdsets f1) "ad_sets" =
        some (J.arr (adsetsListOf fields)) := by
      rw [rekeyAdsets_ad_sets f1 (hads1 ▸ he.1),
        adsetsListOf_congr f1 fields hads1]
    rw [hsets] at h
    simp only [Option.getD] at h
    cases hpc : processChildren (J.arr (adsetsListOf fields)) processAdSet with
    | error e => simp [hpc] at h
    | ok newAS =>
      simp only [hpc, Except.ok.injEq] at h
      subst h
      rcases processChildren_arr _ _ _ hpc with ⟨l2, hm, hout⟩
      subst hout
      unfold campaignSeqCheck
      rw [Bool.and_eq_true]
      constructor
      · show (dictGet (dictSet (rekeyAdsets f1) "ad_sets" (J.arr l2)) "adsets").isNone
          = true
        rw [dictGet_set_ne _ _ _ _ (by decide),
          rekeyAdsets_no_adsets f1 (normalizeFields_nodup fields f1 hk hnf)]
        rfl
      · show (match dictGet (dictSet (rekeyAdsets f1) "ad_sets" (J.arr l2)) "ad_sets" with
            | some (J.arr l) => l.all fun a =>
                match a with
                | J.obj af => (dictGet af "ads").isSome &&
                    (match dictGet af "ads" with
                     | some (J.arr _) => true
                     | _ => false)
                | _ => false
            | _ => false) = true
        rw [dictGet_set_self]
        rw [List.all_eq_true]
        intro y hy
        rcases exMapM_mem_ok processAdSet _ _ hm y hy with ⟨x, hx, hfx⟩
        cases x with
        | obj af =>
          have hex : envelopeOK (dictGet af "ads") = true := by
            have h2 := he.2
            rw [List.all_eq_true] at h2
            simpa using h2 (J.obj af) hx
          rcases processAdSet_seq af y hex hfx with ⟨g, hyg, l3, hgl⟩
          subst hyg
          simp [hgl]
        | null => simp [processAdSet] at hfx
        | bool b => simp [processAdSet] at hfx
        | num n => simp [processAdSet] at hfx
        | str s => simp [processAdSet] at hfx
        | arr l4 => simp [processAdSet] at hfx

/-- Claim C1: for every node whose insights envelope is well-formed (a `data`
value, when present inside an insights mapping, is a sequence), the per-node
normalization sets `performance_metrics` to the first element of
`insights["data"]` when insights is a mapping with a `data` key, to the first
element of insights when insights is itself a sequence, and to `{}` when the
candidate list is empty, insights is absent, or insights has any other shape;
the original `insights` key is absent from the result. -/
theorem C1_insights_normalization (fields : List (String × J))
    (hk : (keysOf fields).Nodup) (hw : insightsDataIsList fields = true) :
    ∃ out, normalizeFields fields = .ok out ∧
      dictGet out "performance_metrics" = some (claimedMetrics fields) ∧
      dictGet out "insights" = none := by
  cases hins : dictGet fields "insights" with
  | none =>
    refine ⟨dictSet fields "performance_metrics" (J.obj []), ?_, ?_, ?_⟩
    · simp [normalizeFields, hins]
    · rw [dictGet_set_self]
      simp [claimedMetrics, hins]
    · rw [dictGet_set_ne _ _ _ _ (by decide)]
      exact hins
  | some ins =>
    have hfe := firstItem_claimed fields ins hins hw
    refine ⟨dictDel (dictSet fields "performance_metrics" (claimedMetrics fields))
        "insights", ?_, ?_, ?_⟩
    · simp [normalizeFields, hins, hfe]
    · rw [dictGet_del_ne _ _ _ (by decide), dictGet_set_self]
    · exact dictGet_del_self _ _ (nodup_keysOf_set _ _ _ hk)

/-- Witness for C1 at the spec's own example shape `insights = {"data": [X, Y]}`:
the first record is selected and insights is gone. -/
theorem C1_witness :
    ∃ out, normalizeFields [("insights", J.obj [("data", J.arr
        [J.obj [("spend", J.num 3)], J.obj [("spend", J.num 4)]])])] = .ok out ∧
      dictGet out "performance_metrics" = some (J.obj [("spend", J.num 3)]) ∧
      dictGet out "insights" = none :=
  C1_insights_normalization
    [("insights", J.obj [("data", J.arr
      [J.obj [("spend", J.num 3)], J.obj [("spend", J.num 4)]])])]
    (by decide) rfl

/-- Counterexample to claim C2 as stated: on a node whose insights carry a
non-empty record, the first application sets `performance_metrics` to that
record, while the second application—insights now being absent—overwrites it
with `{}`, so normalize∘normalize differs from normalize. -/
theorem C2_counterexample :
    normalizeFields c2node =
      .ok [("performance_metrics", J.obj [("spend", J.num 1)])] ∧
    Except.bind (normalizeFields c2node) normalizeFields =
      .ok [("performance_metrics", J.obj [])] ∧
    Except.bind (normalizeFields c2node) normalizeFields ≠ normalizeFields c2node := by
  refine ⟨rfl, rfl, ?_⟩
  exact obs_ne perfIsEmptyObs rfl rfl (by decide)

/-- Claim C2 as amended: a second application of the per-node normalization
always resets `performance_metrics` to `{}` (the insights key being absent after
the first application), so the normalization is idempotent exactly on the nodes
whose normalized `performance_metrics` is the empty record. -/
theorem C2_second_normalization (fields out : List (String × J))
    (hk : (keysOf fields).Nodup) (h : normalizeFields fields = .ok out) :
    normalizeFields out = .ok (dictSet out "performance_metrics" (J.obj [])) ∧
    (normalizeFields out = .ok out ↔
      dictGet out "performance_metrics" = some (J.obj [])) := by
  have hno := normalizeFields_no_insights fields out hk h
  have h1 : normalizeFields out = .ok (dictSet out "performance_metrics" (J.obj [])) := by
    simp [normalizeFields, hno]
  refine ⟨h1, ?_⟩
  rw [h1]
  constructor
  · intro h2
    have h3 : dictSet out "performance_metrics" (J.obj []) = out := by
      injection h2
    exact (dictSet_eq_self_iff _ _ _).mp h3
  · intro h2
    rw [(dictSet_eq_self_iff _ _ _).mpr h2]

/-- Witness for C2's amended statement at the counterexample node: the second
application resets the metrics record to `{}`. -/
theorem C2_witness :
    normalizeFields [("performance_metrics", J.obj [("spend", J.num 1)])] =
      .ok [("performance_metrics", J.obj [])] :=
  (C2_second_normalization c2node
    [("performance_metrics", J.obj [("spend", J.num 1)])] (by decide) rfl).1

/-- Counterexample to claim C3 as stated: when the primary nested call raises,
the fallback path returns campaigns straight from the flat get_campaigns fetch
without normalization, so a campaign can lack the `performance_metrics` key
entirely. -/
theorem C3_counterexample :
    get_campaigns_detailed envC3cex =
      .ok (J.arr [J.obj [("id", J.str "c1"), ("ad_sets", J.arr [])]]) ∧
    Except.map nodesAllHavePerf (get_campaigns_detailed envC3cex) = .ok false :=
  ⟨rfl, rfl⟩

/-- Claim C3 as amended: on the primary path every returned node — campaign, ad
set and ad — carries `performance_metrics`; on the fallback path the ad-set
nodes produced by get_ad_sets all carry it, but campaigns and ads are returned
raw. -/
theorem C3_perf_presence :
    (∀ (env : Env) (cs : List J), primaryPath env = .ok (J.arr cs) →
      cs.all campaignPerfCheck = true) ∧
    (∀ (script : List (Except String J)) (outl : List J) (n : Nat),
      get_ad_sets script = .ok (J.arr outl, n) → outl.all hasPerfKey = true) :=
  ⟨primaryPath_perf, get_ad_sets_perf⟩

/-- Witness for C3's amended statement: a concrete primary-path run and a
concrete get_ad_sets run, both checked to carry metrics everywhere. -/
theorem C3_witness :
    ([J.obj [("id", J.str "c7"), ("performance_metrics", J.obj []),
      ("ad_sets", J.arr [J.obj [("id", J.str "s1"),
        ("ads", J.arr [J.obj [("id", J.str "ad1"), ("performance_metrics", J.obj [])]]),
        ("performance_metrics", J.obj [])]])]]).all campaignPerfCheck = true ∧
    ([J.obj [("id", J.str "a3"), ("performance_metrics", J.obj [])]]).all
      hasPerfKey = true :=
  ⟨C3_perf_presence.1 envC3w _ rfl, C3_perf_presence.2 [Except.ok wpage3] _ 1 rfl⟩

/-- Claim C4: on a well-formed linked chain of pages, both paginated fetchers
follow each `paging.next` link exactly once, make exactly one network call per
page, and return the concatenation of all pages' records in order (the ad-sets
fetcher normalizes each record, the campaigns fetcher appends them raw); the
walk ends at a page without a next link, and — for the campaigns fetcher, which
re-issues only the query string — an unparseable next link without a "?" ends
the walk after that page with no further call. -/
theorem C4_pagination_walk :
    (∀ (p : J) (pages : List J), pageOK p = true → linkOK p pages = true →
      chainOK pages = true →
      get_ad_sets ((p :: pages).map Except.ok) =
        .ok (J.arr (normConcat (p :: pages)), pages.length + 1) ∧
      get_campaigns_page ((p :: pages).map Except.ok) =
        .ok (J.arr (rawConcat (p :: pages)), pages.length + 1)) ∧
    (∀ (p2 : J) (u : String) (rest : List (Except String J)),
      pageOK p2 = true → whileCond p2 = .ok true → nextUrl p2 = .ok (J.str u) →
      hasQuery u = false →
      get_campaigns_page (Except.ok p2 :: rest) = .ok (J.arr (dataOf p2), 1)) := by
  constructor
  · intro p pages hp hlink hchain
    obtain ⟨fields, l, nl, hpf, hd, hm⟩ := pageOK_elim p hp
    subst hpf
    constructor
    · rw [List.map_cons]
      simp only [get_ad_sets, getDataRaw_eq fields l hd, processChildren, hm,
        get_ad_sets_loop_chain pages (J.obj fields) nl hlink hchain]
      rw [show normConcat (J.obj fields :: pages) = nl ++ normConcat pages by
        simp [normConcat, normDataOf_eq fields l nl hd hm]]
    · rw [List.map_cons]
      simp only [get_campaigns_page, getDataRaw_eq fields l hd,
        get_campaigns_loop_chain pages (J.obj fields) l hlink hchain]
      rw [show rawConcat (J.obj fields :: pages) = l ++ rawConcat pages by
        simp [rawConcat, dataOf_eq fields l hd]]
  · intro p2 u rest hp hwt hnu hq
    obtain ⟨fields, l, nl, hpf, hd, hm⟩ := pageOK_elim p2 hp
    subst hpf
    simp only [get_campaigns_page, getDataRaw_eq fields l hd,
      get_campaigns_loop_unparseable (J.obj fields) l u rest hwt hnu hq]
    rw [dataOf_eq fields l hd]

/-- Witness for C4: three linked mock pages yield all three pages' records in
order with exactly three calls on both fetchers, and a next link without a
query string ends the campaigns walk after one call. -/
theorem C4_witness :
    get_ad_sets ([wpage1, wpage2, wpage3].map Except.ok) =
      .ok (J.arr (normConcat [wpage1, wpage2, wpage3]), 3) ∧
    get_campaigns_page ([wpage1, wpage2, wpage3].map Except.ok) =
      .ok (J.arr (rawConcat [wpage1, wpage2, wpage3]), 3) ∧
    get_campaigns_page [Except.ok wpageNoQ, Except.ok wpage3] =
      .ok (J.arr (dataOf wpageNoQ), 1) :=
  ⟨(C4_pagination_walk.1 wpage1 [wpage2, wpage3] rfl rfl rfl).1,
   (C4_pagination_walk.1 wpage1 [wpage2, wpage3] rfl rfl rfl).2,
   C4_pagination_walk.2 wpageNoQ "opaque-link" [Except.ok wpage3] rfl rfl rfl rfl⟩

/-- Claim C5: if a page fetch raises partway through the ad-sets pagination, the
failure is not propagated: the loop stops and the records accumulated from the
pages already fetched are returned, the failing GET included in the call
count. -/
theorem C5_pagination_failure (first : J) (pages : List J) (e : String)
    (tail : List (Except String J))
    (hfirst : pageOK first = true) (hnext : hasNextQB first = true)
    (hchain : chainAllNext pages = true) :
    get_ad_sets ((first :: pages).map Except.ok ++ Except.error e :: tail) =
      .ok (J.arr (normConcat (first :: pages)), pages.length + 2) := by
  obtain ⟨fields, l, nl, hpf, hd, hm⟩ := pageOK_elim first hfirst
  subst hpf
  rw [List.map_cons, List.cons_append]
  simp only [get_ad_sets, getDataRaw_eq fields l hd, processChildren, hm,
    get_ad_sets_loop_fail pages (J.obj fields) nl e tail hnext hchain]
  rw [show normConcat (J.obj fields :: pages) = nl ++ normConcat pages by
    simp [normConcat, normDataOf_eq fields l nl hd hm]]

/-- Witness for C5: the third of three pages raises; the first two pages'
records are returned, normalized, without raising. -/
theorem C5_witness :
    get_ad_sets [Except.ok wpage1, Except.ok wpage2,
        Except.error "ConnectionError"] =
      .ok (J.arr (normConcat [wpage1, wpage2]), 3) :=
  C5_pagination_failure wpage1 [wpage2] "ConnectionError" [] rfl rfl rfl

/-- Claim C6: on the fallback path (the primary nested call having raised), a
raising ad-set fetch for one campaign sets that campaign's `ad_sets` to `[]`
without aborting the assembly — the other campaign keeps its populated ad-set
list — and likewise, within one campaign's ad sets, a raising ad fetch for one
ad set sets that ad set's `ads` to `[]` without aborting: the other ad set still
receives its fetched ads. -/
theorem C6_fallback_isolation :
    (∀ (env : Env) (f1 f2 : List (String × J)) (i1 i2 : J) (em e1 : String)
       (resp : J) (as2 as2proc : List J) (n2 : Nat),
      primaryPath env = .error em →
      env.fallbackCampaigns = .ok resp →
      getDataRaw resp = .ok (J.arr [J.obj f1, J.obj f2]) →
      dictGet f1 "id" = some i1 →
      dictGet f2 "id" = some i2 →
      get_ad_sets (env.adsetsFor i1) = .error e1 →
      get_ad_sets (env.adsetsFor i2) = .ok (J.arr as2, n2) →
      exMapM (fallbackAdSet env) as2 = .ok as2proc →
      as2proc ≠ [] →
      get_campaigns_detailed env =
        .ok (J.arr [J.obj (dictSet f1 "ad_sets" (J.arr [])),
                    J.obj (dictSet f2 "ad_sets" (J.arr as2proc))])) ∧
    (∀ (env : Env) (g1 g2 : List (String × J)) (j1 j2 : J) (e2 : String) (adsVal : J),
      dictGet g1 "id" = some j1 →
      dictGet g2 "id" = some j2 →
      get_ads (env.adsFor j1) = .error e2 →
      get_ads (env.adsFor j2) = .ok adsVal →
      fallbackAdSet env (J.obj g1) = .ok (J.obj (dictSet g1 "ads" (J.arr []))) ∧
      exMapM (fallbackAdSet env) [J.obj g1, J.obj g2] =
        .ok [J.obj (dictSet g1 "ads" (J.arr [])),
             J.obj (dictSet g2 "ads" adsVal)]) := by
  constructor
  · intro env f1 f2 i1 i2 em e1 resp as2 as2proc n2 hp hf hd h1 h2 hfail hok hproc _
    simp only [get_campaigns_detailed, primaryPath] at hp ⊢
    rw [hp]
    simp only [get_campaigns, hf, hd, processChildren, exMapM,
      fallbackCampaign, h1, h2, hfail, hok, hproc]
  · intro env g1 g2 j1 j2 e2 adsVal h1 h2 hfail hok
    constructor
    · simp only [fallbackAdSet, h1, hfail]
    · simp only [exMapM, fallbackAdSet, h1, h2, hfail, hok]

/-- Witness for C6 at a concrete transport: the primary call raises; campaign
c1's ad-set fetch raises and yields `ad_sets = []` while campaign c2 keeps two
assembled ad sets; within campaign c2, ad set s1's ad fetch raises and yields
`ads = []` while ad set s2 keeps its fetched ad. -/
theorem C6_witness :
    get_campaigns_detailed envC6w =
      .ok (J.arr
        [J.obj [("id", J.str "c1"), ("ad_sets", J.arr [])],
         J.obj [("id", J.str "c2"), ("ad_sets", J.arr
           [J.obj [("id", J.str "s1"), ("performance_metrics", J.obj []),
                   ("ads", J.arr [])],
            J.obj [("id", J.str "s2"), ("performance_metrics", J.obj []),
                   ("ads", J.arr [J.obj [("id", J.str "ad1")]])]])]]) ∧
    fallbackAdSet envC6w (J.obj [("id", J.str "s1"), ("performance_metrics", J.obj [])]) =
      .ok (J.obj [("id", J.str "s1"), ("performance_metrics", J.obj []),
                  ("ads", J.arr [])]) ∧
    exMapM (fallbackAdSet envC6w)
        [J.obj [("id", J.str "s1"), ("performance_metrics", J.obj [])],
         J.obj [("id", J.str "s2"), ("performance_metrics", J.obj [])]] =
      .ok [J.obj [("id", J.str "s1"), ("performance_metrics", J.obj []),
                  ("ads", J.arr [])],
           J.obj [("id", J.str "s2"), ("performance_metrics", J.obj []),
                  ("ads", J.arr [J.obj [("id", J.str "ad1")]])]] :=
  ⟨C6_fallback_isolation.1 envC6w
    [("id", J.str "c1")] [("id", J.str "c2")] (J.str "c1") (J.str "c2")
    "ConnectionError" "ConnectionError"
    (J.obj [("data", J.arr [J.obj [("id", J.str "c1")], J.obj [("id", J.str "c2")]])])
    [J.obj [("id", J.str "s1"), ("performance_metrics", J.obj [])],
     J.obj [("id", J.str "s2"), ("performance_metrics", J.obj [])]]
    [J.obj [("id", J.str "s1"), ("performance_metrics", J.obj []),
            ("ads", J.arr [])],
     J.obj [("id", J.str "s2"), ("performance_metrics", J.obj []),
            ("ads", J.arr [J.obj [("id", J.str "ad1")]])]]
    1 rfl rfl rfl rfl rfl rfl rfl rfl (by simp),
   (C6_fallback_isolation.2 envC6w
     [("id", J.str "s1"), ("performance_metrics", J.obj [])]
     [("id", J.str "s2"), ("performance_metrics", J.obj [])]
     (J.str "s1") (J.str "s2") "ConnectionError"
     (J.arr [J.obj [("id", J.str "ad1")]]) rfl rfl rfl rfl).1,
   (C6_fallback_isolation.2 envC6w
     [("id", J.str "s1"), ("performance_metrics", J.obj [])]
     [("id", J.str "s2"), ("performance_metrics", J.obj [])]
     (J.str "s1") (J.str "s2") "ConnectionError"
     (J.arr [J.obj [("id", J.str "ad1")]]) rfl rfl rfl rfl).2⟩

/-- Counterexample to claim C7 as stated: the handler issues the connectivity
check — a network call — before validating the status, so a request with status
"DELETED" is indeed rejected with an "Invalid status" envelope and no upstream
status-update call, but not before any network call: one call has already been
made at rejection time. -/
theorem C7_counterexample :
    msgOf (update_adset_status true (.ok (J.obj [])) "as1" "DELETED").1 =
      "Invalid status. Must be ACTIVE, PAUSED, or ARCHIVED" ∧
    containsSub (msgOf (update_adset_status true (.ok (J.obj [])) "as1" "DELETED").1)
      "Invalid status" = true ∧
    (update_adset_status true (.ok (J.obj [])) "as1" "DELETED").2 =
      ["test_connection"] ∧
    (update_adset_status true (.ok (J.obj [])) "as1" "DELETED").2 ≠ [] := by
  exact ⟨rfl, rfl, rfl, by decide⟩

/-- Claim C7 as amended: when the connectivity check succeeds, every status
update request whose non-empty status value lies outside
ACTIVE/PAUSED/ARCHIVED is rejected with an error envelope whose message contains
"Invalid status", and the only network call issued is the connectivity check —
in particular no upstream status-update call is made. -/
theorem C7_invalid_status (upd : Except UpdateExc J) (adset_id status : String)
    (h0 : status ≠ "") (h1 : status ≠ "ACTIVE") (h2 : status ≠ "PAUSED")
    (h3 : status ≠ "ARCHIVED") :
    update_adset_status true upd adset_id status =
      (errEnvelope "Invalid status. Must be ACTIVE, PAUSED, or ARCHIVED",
       ["test_connection"]) ∧
    containsSub (msgOf (update_adset_status true upd adset_id status).1)
      "Invalid status" = true ∧
    "update_ad_set_status" ∉ (update_adset_status true upd adset_id status).2 := by
  have hmain : update_adset_status true upd adset_id status =
      (errEnvelope "Invalid status. Must be ACTIVE, PAUSED, or ARCHIVED",
       ["test_connection"]) := by
    simp [update_adset_status, h0, h1, h2, h3]
  refine ⟨hmain, ?_, ?_⟩
  · rw [hmain]
    rfl
  · rw [hmain]
    simp

/-- Witness for C7's amended statement at status "DELETED". -/
theorem C7_witness :
    update_adset_status true (.ok (J.obj [])) "as9" "DELETED" =
      (errEnvelope "Invalid status. Must be ACTIVE, PAUSED, or ARCHIVED",
       ["test_connection"]) ∧
    containsSub (msgOf (update_adset_status true (.ok (J.obj [])) "as9" "DELETED").1)
      "Invalid status" = true ∧
    "update_ad_set_status" ∉
      (update_adset_status true (.ok (J.obj [])) "as9" "DELETED").2 :=
  C7_invalid_status (.ok (J.obj [])) "as9" "DELETED"
    (by decide) (by decide) (by decide) (by decide)

/-- Claim C8: the config-pull delay starts at 5 s, doubles on each failure or
non-success, is capped at 300 s and resets to 5 s on success: after n
consecutive failures (from the start or from any success) the next delay is
min(5·2ⁿ, 300); after 3 failures it is 40 s; it never exceeds 300 and saturates
at exactly 300 from the sixth consecutive failure on. -/
theorem C8_backoff :
    (∀ n : Nat, pull_config_backoff (List.replicate n false) = min (5 * 2 ^ n) 300) ∧
    pull_config_backoff (List.replicate 3 false) = 40 ∧
    (∀ pre : List Bool, pull_config_backoff (pre ++ [true]) = 5) ∧
    (∀ (pre : List Bool) (n : Nat),
      pull_config_backoff (pre ++ true :: List.replicate n false) =
        min (5 * 2 ^ n) 300) ∧
    (∀ events : List Bool, pull_config_backoff events ≤ 300) ∧
    (∀ n : Nat, 6 ≤ n → pull_config_backoff (List.replicate n false) = 300) := by
  have hrep : ∀ n : Nat, pull_config_backoff (List.replicate n false) =
      min (5 * 2 ^ n) 300 := backoff_replicate_false
  refine ⟨hrep, rfl, ?_, ?_, ?_, ?_⟩
  · intro pre
    rw [pull_config_backoff, List.foldl_append]
    simp [pull_config_backoff_step]
  · intro pre n
    rw [pull_config_backoff, List.foldl_append, List.foldl_cons]
    simp only [pull_config_backoff_step, if_pos rfl]
    exact backoff_replicate_false n
  · intro events
    exact backoff_foldl_le events 5 (by norm_num)
  · intro n hn
    rw [hrep n, min_eq_right]
    calc (300 : Nat) ≤ 5 * 2 ^ 6 := by norm_num
    _ ≤ 5 * 2 ^ n := Nat.mul_le_mul_left 5 (Nat.pow_le_pow_right (by norm_num) hn)

/-- Witness for C8's saturation clause: after seven consecutive failures the
delay is exactly 300 s, and after three it is 40 s. -/
theorem C8_witness :
    pull_config_backoff (List.replicate 7 false) = 300 ∧
    pull_config_backoff (List.replicate 3 false) = 40 :=
  ⟨C8_backoff.2.2.2.2.2 7 (by norm_num), C8_backoff.2.1⟩

/-- Counterexample to claim C9 as stated: when the response body parses to JSON
that carries no `error` object, the normalization leaves the generic exception
text in place rather than falling back to the raw response text. -/
theorem C9_counterexample :
    metaErrorDetails c9exc = ("500 Server Error", "500 Server Error") ∧
    (metaErrorDetails c9exc).2 ≠ "plain body text" := by
  exact ⟨rfl, by decide⟩

/-- Claim C9 as amended: for a non-success mutation response, the error details
are "Meta API Error <code>: <message>" when the body parses to a dict with an
`error` dict, with " (Subcode: <n>)" appended when `error_subcode` is present;
the raw response text when the body fails to parse; and the generic exception
text when no response is attached or the body parses without an `error`
object. -/
theorem C9_error_normalization :
    (∀ t : String, metaErrorDetails ⟨t, none⟩ = (t, t)) ∧
    (∀ t txt : String, metaErrorDetails ⟨t, some ⟨none, txt⟩⟩ = (t, txt)) ∧
    (∀ (t txt : String) (fields : List (String × J)),
      dictGet fields "error" = none →
      metaErrorDetails ⟨t, some ⟨some (J.obj fields), txt⟩⟩ = (t, t)) ∧
    (∀ (t txt : String) (fields ef : List (String × J)) (c m : J),
      dictGet fields "error" = some (J.obj ef) →
      dictGet ef "code" = some c → dictGet ef "message" = some m →
      dictGet ef "error_subcode" = none →
      metaErrorDetails ⟨t, some ⟨some (J.obj fields), txt⟩⟩ =
        (pyStr m, "Meta API Error " ++ pyStr c ++ ": " ++ pyStr m)) ∧
    (∀ (t txt : String) (fields ef : List (String × J)) (c m sc : J),
      dictGet fields "error" = some (J.obj ef) →
      dictGet ef "code" = some c → dictGet ef "message" = some m →
      dictGet ef "error_subcode" = some sc →
      metaErrorDetails ⟨t, some ⟨some (J.obj fields), txt⟩⟩ =
        (pyStr m, "Meta API Error " ++ pyStr c ++ ": " ++ pyStr m ++
          " (Subcode: " ++ pyStr sc ++ ")")) := by
  refine ⟨fun t => rfl, fun t txt => rfl, ?_, ?_, ?_⟩
  · intro t txt fields he
    simp [metaErrorDetails, he]
  · intro t txt fields ef c m he hc hm hsc
    simp [metaErrorDetails, he, hc, hm, hsc]
  · intro t txt fields ef c m sc he hc hm hsc
    simp [metaErrorDetails, he, hc, hm, hsc]

/-- Witness for C9's amended statement at a concrete structured error body with
a subcode. -/
theorem C9_witness :
    metaErrorDetails ⟨"HTTP 400", some ⟨some (J.obj [("error", J.obj
        [("code", J.num 100), ("message", J.str "Bad"), ("error_subcode", J.num 33)])]),
        "raw"⟩⟩ =
      ("Bad", "Meta API Error 100: Bad (Subcode: 33)") :=
  C9_error_normalization.2.2.2.2 "HTTP 400" "raw"
    [("error", J.obj [("code", J.num 100), ("message", J.str "Bad"),
      ("error_subcode", J.num 33)])]
    [("code", J.num 100), ("message", J.str "Bad"), ("error_subcode", J.num 33)]
    (J.num 100) (J.str "Bad") (J.num 33) rfl rfl rfl rfl

/-- Counterexample to claim C10 as stated: a campaign whose `adsets` envelope
carries an empty dict as its `data` value comes out of the primary path with
`ad_sets = {}` — the key is present but its value is not a sequence. -/
theorem C10_counterexample :
    get_campaigns_detailed envC10cex =
      .ok (J.arr [J.obj [("id", J.str "c1"), ("performance_metrics", J.obj []),
                         ("ad_sets", J.obj [])]]) ∧
    Except.map childContainersAreSeqs (get_campaigns_detailed envC10cex) =
      .ok false :=
  ⟨rfl, rfl⟩

/-- Claim C10 as amended: for a campaign with duplicate-free keys whose child
envelopes are well-formed (whenever `adsets` or an ad set's `ads` is a mapping
with a `data` key, that value is a sequence), the primary normalization yields a
campaign whose `ad_sets` is a sequence with the original `adsets` key removed,
and every ad set in it has an `ads` key holding a sequence. -/
theorem C10_child_sequences (fields : List (String × J)) (out : J)
    (hk : (keysOf fields).Nodup) (he : campaignEnvOK fields = true)
    (h : processCampaign (J.obj fields) = .ok out) :
    campaignSeqCheck out = true :=
  processCampaign_seq fields out hk he h

/-- Witness for C10's amended statement at a concrete well-formed campaign. -/
theorem C10_witness :
    campaignSeqCheck (J.obj [("id", J.str "c7"), ("performance_metrics", J.obj []),
      ("ad_sets", J.arr [J.obj [("id", J.str "s1"),
        ("ads", J.arr [J.obj [("id", J.str "ad1"), ("performance_metrics", J.obj [])]]),
        ("performance_metrics", J.obj [])]])]) = true :=
  C10_child_sequences wfieldsC10 _ (by decide) rfl rfl
